import Mathlib

/-!
Shallow embedding of the Substrate `pallet-scheduler` (src/frame/scheduler/src/lib.rs)
and proofs about its specification claims.

Block numbers, weights and priorities are modelled as `Nat`.  The generic
`Call` is modelled by the observable data the pallet uses about it: its
dispatch-info weight, its dispatch outcome, the actual weight it reports, and
its encoded length (used by the `MaxCallLen` bound of `EncodedCallOrHashOf`).
The preimage provider ("payload resolver") is modelled by a fixed preimage
table in the configuration plus a multiset of requested hashes in the state
(`request_preimage` conses, `unrequest_preimage` erases one occurrence).
-/

namespace Scheduler

/-- Observable content of a runtime `Call` as used by the scheduler:
`get_dispatch_info().weight`, the dispatch outcome, the actual weight
reported by dispatch, and the length of its SCALE encoding. -/
structure Call where
  weight : Nat
  dispatchOk : Bool
  actualWeight : Option Nat
  encLen : Nat
deriving DecidableEq

/-- `MaybeHashed<Call, Hash>`: either an inline call or a hash reference. -/
inductive MHCall where
  | value (c : Call)
  | hash (h : Nat)
deriving DecidableEq

/-- A pallets-origin, modelled by its privilege-relevant identity (`rank`)
and whether `ensure_signed` succeeds on it. -/
structure Origin where
  rank : Nat
  signed : Bool
deriving DecidableEq

/-- `ScheduledV4`: one stored task.  `_phantom` is omitted (it carries no data). -/
structure Scheduled where
  maybe_id : Option (List Nat)
  priority : Nat
  call : MHCall
  maybe_periodic : Option (Nat × Nat)
  origin : Origin
deriving DecidableEq

/-- The pallet's events.  `callLookupFailed` is declared in the source
(`Event::CallLookupFailed`) and is included so that statements about its
(non-)emission can be made. -/
inductive Event where
  | scheduled (when index : Nat)
  | canceled (when index : Nat)
  | dispatched (when index : Nat) (id : Option (List Nat)) (result : Bool)
  | callLookupFailed (when index : Nat) (id : Option (List Nat))
deriving DecidableEq

/-- The pallet's `Error` enum plus `BadOrigin` (a `DispatchError` used by cancel). -/
inductive SchedError where
  | failedToSchedule
  | notFound
  | targetBlockNumberInPast
  | rescheduleNoChange
  | scheduleIdTooLong
  | tooManyAgendas
  | callTooLong
  | badOrigin
deriving DecidableEq

/-- `DispatchTime`: an absolute block number or a relative delay. -/
inductive DispatchTime where
  | At (x : Nat)
  | After (x : Nat)
deriving DecidableEq

/-- Deployment configuration: the `Config` constants, the privilege comparator,
the preimage table of the payload resolver, and the benchmark weight functions
(`WeightInfo::on_init(0)` as `baseWeight`, `MarginalWeightInfo::item` as
`itemWeight`, `DbWeight::reads_writes(1,1)` as `dbWeight`). -/
structure Config where
  maximumWeight : Nat
  maxScheduledPerBlock : Nat
  maxCallLen : Nat
  noPreimagePostponement : Option Nat
  cmpPrivilege : Origin → Origin → Option Ordering
  preimages : Nat → Option Call
  baseWeight : Nat
  itemWeight : Bool → Bool → Option Bool → Nat
  dbWeight : Nat

/-- Storage state: the `Agenda` map (slot → bounded vector of optional tasks,
`ValueQuery` with default `[]`), the `Lookup` map (name → task address), the
multiset of preimage requests held by the payload resolver, and the emitted
events (appended in order). -/
structure State where
  agenda : Nat → List (Option Scheduled)
  lookup : List Nat → Option (Nat × Nat)
  requests : List Nat
  events : List Event

/-- Pointwise map update. -/
def upd {κ α : Type} [DecidableEq κ] (f : κ → α) (k : κ) (v : α) : κ → α :=
  fun x => if x = k then v else f x

/-- `MaybeHashed::ensure_requested`: request the preimage for a hash reference. -/
def requestCall (reqs : List Nat) : MHCall → List Nat
  | .value _ => reqs
  | .hash h => h :: reqs

/-- `MaybeHashed::ensure_unrequested`: release the preimage for a hash reference. -/
def unrequestCall (reqs : List Nat) : MHCall → List Nat
  | .value _ => reqs
  | .hash h => reqs.erase h

/-- Encoded length of a `MaybeHashed` (one tag byte plus payload; a hash
reference encodes to a fixed 33 bytes). -/
def MHCall.encLen : MHCall → Nat
  | .value c => 1 + c.encLen
  | .hash _ => 33

/-- `MaybeHashed::resolved`: a hash becomes a value if the preimage is
available, reporting the completed hash; otherwise it is returned unchanged. -/
def resolvedCall (cfg : Config) : MHCall → MHCall × Option Nat
  | .value c => (.value c, none)
  | .hash h =>
    match cfg.preimages h with
    | some c => (.value c, some h)
    | none => (.hash h, none)

/-- `MaybeHashed::as_value`. -/
def asValue : MHCall → Option Call
  | .value c => some c
  | .hash _ => none

/-- The periodic sanitisation of `do_schedule`/`do_schedule_named`:
`maybe_periodic.filter(|p| p.1 > 1 && !p.0.is_zero()).map(|(p, c)| (p, c - 1))`. -/
def sanitizePeriodic : Option (Nat × Nat) → Option (Nat × Nat)
  | some (p, c) => if 1 < c ∧ p ≠ 0 then some (p, c - 1) else none
  | none => none

/-- The periodic step of the tick engine: decrement the remaining count,
dropping the descriptor when it reaches zero. -/
def nextPeriodic (pc : Nat × Nat) : Option (Nat × Nat) :=
  if 1 < pc.2 then some (pc.1, pc.2 - 1) else none

/-- `Agenda::try_append`: append to the bounded per-slot vector, failing when
the `MaxScheduledPerBlock` capacity is reached. -/
def tryAppendA (cfg : Config) (ag : Nat → List (Option Scheduled)) (w : Nat)
    (x : Option Scheduled) : Option (Nat → List (Option Scheduled)) :=
  if (ag w).length < cfg.maxScheduledPerBlock then some (upd ag w (ag w ++ [x])) else none

/-- The cancellation privilege test: `cmp_privilege` returning `Less` or
`None` (incomparable) refuses the cancellation. -/
def badPriv (cfg : Config) (o so : Origin) : Bool :=
  match cfg.cmpPrivilege o so with
  | some .lt => true
  | none => true
  | _ => false

/-- `HARD_DEADLINE` priority bound.  Modelled from the spec: the distinguished
hard-deadline priority; its numeric value (63) is the
`frame_support::traits::schedule::HARD_DEADLINE` constant, whose module is not
part of the provided sources.  Only the source's comparison `priority <=
HARD_DEADLINE` and the fact that the constant is positive are used. -/
def HARD_DEADLINE : Nat := 63

/-- `Pallet::resolve_time`. -/
def resolve_time (now : Nat) : DispatchTime → Except SchedError Nat
  | .At x => if x ≤ now then .error .targetBlockNumberInPast else .ok x
  | .After x =>
    let w := now + x + 1
    if w ≤ now then .error .targetBlockNumberInPast else .ok w

/-- `Pallet::do_schedule`.  Note the order of effects: the preimage request
happens before the (fallible) length check and agenda insertion. -/
def do_schedule (cfg : Config) (now : Nat) (when : DispatchTime)
    (maybe_periodic : Option (Nat × Nat)) (priority : Nat) (origin : Origin)
    (call : MHCall) (st : State) : Except SchedError (Nat × Nat) × State :=
  match resolve_time now when with
  | .error e => (.error e, st)
  | .ok w =>
    let st := { st with requests := requestCall st.requests call }
    if call.encLen ≤ cfg.maxCallLen then
      let s : Scheduled :=
        { maybe_id := none, priority := priority, call := call,
          maybe_periodic := sanitizePeriodic maybe_periodic, origin := origin }
      match tryAppendA cfg st.agenda w (some s) with
      | some ag =>
        let idx := (ag w).length - 1
        (.ok (w, idx),
         { st with agenda := ag, events := st.events ++ [.scheduled w idx] })
      | none => (.error .tooManyAgendas, st)
    else (.error .callTooLong, st)

/-- `Pallet::do_schedule_named`. -/
def do_schedule_named (cfg : Config) (now : Nat) (id : List Nat)
    (when : DispatchTime) (maybe_periodic : Option (Nat × Nat)) (priority : Nat)
    (origin : Origin) (call : MHCall) (st : State) :
    Except SchedError (Nat × Nat) × State :=
  if (st.lookup id).isSome then (.error .failedToSchedule, st)
  else
    match resolve_time now when with
    | .error e => (.error e, st)
    | .ok w =>
      let st := { st with requests := requestCall st.requests call }
      if call.encLen ≤ cfg.maxCallLen then
        let s : Scheduled :=
          { maybe_id := some id, priority := priority, call := call,
            maybe_periodic := sanitizePeriodic maybe_periodic, origin := origin }
        match tryAppendA cfg st.agenda w (some s) with
        | some ag =>
          let idx := (ag w).length - 1
          (.ok (w, idx),
           { st with agenda := ag, lookup := upd st.lookup id (some (w, idx)),
                     events := st.events ++ [.scheduled w idx] })
        | none => (.error .tooManyAgendas, st)
      else (.error .callTooLong, st)

/-- State change of a successful `do_cancel`: vacate the slot (tombstone),
release the payload reference, drop the name-index entry, emit `Canceled`. -/
def cancelApply (st : State) (when index : Nat) (s : Scheduled) : State :=
  let st := { st with
    agenda := upd st.agenda when ((st.agenda when).set index none),
    requests := unrequestCall st.requests s.call }
  let st :=
    match s.maybe_id with
    | some id => { st with lookup := upd st.lookup id none }
    | none => st
  { st with events := st.events ++ [.canceled when index] }

/-- `Pallet::do_cancel`. -/
def do_cancel (cfg : Config) (origin : Option Origin) (when index : Nat)
    (st : State) : Except SchedError Unit × State :=
  match (st.agenda when).get? index with
  | none => (.error .notFound, st)
  | some none => (.error .notFound, st)
  | some (some s) =>
    match origin with
    | some o =>
      if badPriv cfg o s.origin then (.error .badOrigin, st)
      else (.ok (), cancelApply st when index s)
    | none => (.ok (), cancelApply st when index s)

/-- `Pallet::do_cancel_named`.  The payload release happens only inside the
branch that also performs the privilege check, i.e. only when an origin is
supplied and the stored slot is occupied. -/
def do_cancel_named (cfg : Config) (origin : Option Origin) (id : List Nat)
    (st : State) : Except SchedError Unit × State :=
  match st.lookup id with
  | none => (.error .notFound, st)
  | some (when, index) =>
    match (st.agenda when).get? index with
    | none =>
      (.ok (), { st with lookup := upd st.lookup id none,
                         events := st.events ++ [.canceled when index] })
    | some os =>
      match origin, os with
      | some o, some s =>
        if badPriv cfg o s.origin then (.error .badOrigin, st)
        else
          (.ok (), { st with
            agenda := upd st.agenda when ((st.agenda when).set index none),
            lookup := upd st.lookup id none,
            requests := unrequestCall st.requests s.call,
            events := st.events ++ [.canceled when index] })
      | _, _ =>
        (.ok (), { st with
          agenda := upd st.agenda when ((st.agenda when).set index none),
          lookup := upd st.lookup id none,
          events := st.events ++ [.canceled when index] })

/-- `Pallet::do_reschedule` (by address).  The `Lookup` store is not touched. -/
def do_reschedule (cfg : Config) (now : Nat) (when index : Nat)
    (new_time : DispatchTime) (st : State) :
    Except SchedError (Nat × Nat) × State :=
  match resolve_time now new_time with
  | .error e => (.error e, st)
  | .ok nt =>
    if nt = when then (.error .rescheduleNoChange, st)
    else
      match (st.agenda when).get? index with
      | none => (.error .notFound, st)
      | some none => (.error .notFound, st)
      | some (some task) =>
        let ag1 := upd st.agenda when ((st.agenda when).set index none)
        match tryAppendA cfg ag1 nt (some task) with
        | none => (.error .tooManyAgendas, st)
        | some ag2 =>
          let newIndex := (ag2 nt).length - 1
          (.ok (nt, newIndex),
           { st with agenda := ag2,
                     events := st.events ++
                       [.canceled when index, .scheduled nt newIndex] })

/-- `Pallet::do_reschedule_named`. -/
def do_reschedule_named (cfg : Config) (now : Nat) (id : List Nat)
    (new_time : DispatchTime) (st : State) :
    Except SchedError (Nat × Nat) × State :=
  match resolve_time now new_time with
  | .error e => (.error e, st)
  | .ok nt =>
    match st.lookup id with
    | none => (.error .notFound, st)
    | some (when, index) =>
      if nt = when then (.error .rescheduleNoChange, st)
      else
        match (st.agenda when).get? index with
        | none => (.error .notFound, st)
        | some none => (.error .notFound, st)
        | some (some task) =>
          let ag1 := upd st.agenda when ((st.agenda when).set index none)
          match tryAppendA cfg ag1 nt (some task) with
          | none => (.error .tooManyAgendas, st)
          | some ag2 =>
            let newIndex := (ag2 nt).length - 1
            (.ok (nt, newIndex),
             { st with agenda := ag2,
                       lookup := upd st.lookup id (some (nt, newIndex)),
                       events := st.events ++
                         [.canceled when index, .scheduled nt newIndex] })

/-- Step (a) of the tick loop: remove the name-index entry of a named task. -/
def removeNameStep (st : State) (mid : Option (List Nat)) : State :=
  match mid with
  | some id => { st with lookup := upd st.lookup id none }
  | none => st

/-- Re-adding a `Lookup` entry before a re-insertion: the recorded index is
`Agenda::decode_len` of the target slot, i.e. its current length. -/
def insertLookupFor (st : State) (mid : Option (List Nat)) (w : Nat) : State :=
  match mid with
  | some id => { st with lookup := upd st.lookup id (some (w, (st.agenda w).length)) }
  | none => st

/-- `Agenda::try_append(..).expect("TODO Failed to schedule future block")`:
a failed re-insertion aborts the whole tick (a panic in the source). -/
def appendTask (cfg : Config) (st : State) (w : Nat) (s : Scheduled) :
    Except String State :=
  match tryAppendA cfg st.agenda w (some s) with
  | some ag => .ok { st with agenda := ag }
  | none => .error "TODO Failed to schedule future block"

/-- Re-insert a task into a future slot, re-adding its `Lookup` entry first. -/
def reinsert (cfg : Config) (st : State) (w : Nat) (s : Scheduled) :
    Except String State :=
  appendTask cfg (insertLookupFor st s.maybe_id w) w s

/-- The budget-deferral branch condition of `on_init`:
`!hard_deadline && order > 0 && test_weight > limit`. -/
def deferCondition (cfg : Config) (priority order testWeight : Nat) : Bool :=
  (HARD_DEADLINE < priority) && (0 < order) && (cfg.maximumWeight < testWeight)

/-- One iteration of the `on_init` loop, for the task `s0` taken from
original slot index `index` and processed at sorted position `order`. -/
def processTask (cfg : Config) (now next order index : Nat) (s0 : Scheduled)
    (total : Nat) (st0 : State) : Except String (Nat × State) :=
  let st := removeNameStep st0 s0.maybe_id
  let named := s0.maybe_id.isSome
  let rc := resolvedCall cfg s0.call
  if rc.1.encLen ≤ cfg.maxCallLen then
    let s1 : Scheduled := { s0 with call := rc.1 }
    let st :=
      match rc.2 with
      | some h => { st with requests := st.requests.erase h }
      | none => st
    let resolved := rc.2.isSome
    match asValue rc.1 with
    | none =>
      let total := total + cfg.itemWeight false named none
      match cfg.noPreimagePostponement with
      | some delay =>
        (match reinsert cfg st (now + delay) s1 with
         | .ok st2 => .ok (total, st2)
         | .error e => .error e)
      | none => .ok (total, st)
    | some call =>
      let periodic := s1.maybe_periodic.isSome
      let itemW := cfg.itemWeight periodic named (some resolved) +
        (if s1.origin.signed then cfg.dbWeight else 0)
      let testWeight := total + call.weight + itemW
      if deferCondition cfg s1.priority order testWeight then
        let total := total + cfg.itemWeight false named none
        (match reinsert cfg st next s1 with
         | .ok st2 => .ok (total, st2)
         | .error e => .error e)
      else
        let actual := call.actualWeight.getD call.weight
        let total := total + itemW + actual
        let st := { st with events :=
          st.events ++ [.dispatched now index s1.maybe_id call.dispatchOk] }
        match s1.maybe_periodic with
        | some pc =>
          let s2 := { s1 with maybe_periodic := nextPeriodic pc }
          (match reinsert cfg st (now + pc.1) s2 with
           | .ok st2 => .ok (total, st2)
           | .error e => .error e)
        | none => .ok (total, st)
  else .error "todo"

/-- The per-tick loop over the sorted due tasks. -/
def initLoop (cfg : Config) (now next : Nat) :
    List (Nat × Nat × Scheduled) → Nat → State → Except String (Nat × State)
  | [], total, st => .ok (total, st)
  | (order, index, s) :: rest, total, st =>
    match processTask cfg now next order index s total st with
    | .error e => .error e
    | .ok (total', st') => initLoop cfg now next rest total' st'

/-- Stable insertion (by ascending `priority`) used to model the stable
`queued.sort_by_key(|(_, s)| s.priority)` of the source. -/
def insPrio (x : Nat × Scheduled) : List (Nat × Scheduled) → List (Nat × Scheduled)
  | [] => [x]
  | y :: ys => if y.2.priority < x.2.priority then y :: insPrio x ys else x :: y :: ys

/-- Stable sort by ascending priority (insertion sort, which is the stable
sort: see `sortByPrio_perm`, `sortByPrio_sorted` and `sortByPrio_filter`). -/
def sortByPrio : List (Nat × Scheduled) → List (Nat × Scheduled)
  | [] => []
  | x :: xs => insPrio x (sortByPrio xs)

/-- The tick engine `Pallet::on_initialize` (named `on_init` here): take the
agenda of the current slot, discard tombstones, sort by priority, then run
the admission/dispatch loop. -/
def on_init (cfg : Config) (now : Nat) (st : State) :
    Except String (Nat × State) :=
  let taken := st.agenda now
  let st1 := { st with agenda := upd st.agenda now [] }
  let queued := taken.enum.filterMap (fun p => p.2.map (fun s => (p.1, s)))
  initLoop cfg now (now + 1) (sortByPrio queued).enum cfg.baseWeight st1

/-- Events of an `on_init` run, when it did not abort. -/
def eventsAfter (r : Except String (Nat × State)) : Option (List Event) :=
  match r with
  | .ok (_, st) => some st.events
  | .error _ => none

/-- Weight returned by an `on_init` run, when it did not abort. -/
def weightAfter (r : Except String (Nat × State)) : Option Nat :=
  match r with
  | .ok (w, _) => some w
  | .error _ => none

/-- Agenda of one slot after an `on_init` run, when it did not abort. -/
def agendaAfter (r : Except String (Nat × State)) (w : Nat) :
    Option (List (Option Scheduled)) :=
  match r with
  | .ok (_, st) => some (st.agenda w)
  | .error _ => none

/-- Lookup entry of one id after an `on_init` run, when it did not abort. -/
def lookupAfter (r : Except String (Nat × State)) (id : List Nat) :
    Option (Option (Nat × Nat)) :=
  match r with
  | .ok (_, st) => some (st.lookup id)
  | .error _ => none

/-- The abort message of an `on_init` run, if it aborted. -/
def errorOf (r : Except String (Nat × State)) : Option String :=
  match r with
  | .ok _ => none
  | .error e => some e

/-- Number of `CallLookupFailed` events in an event list. -/
def countLookupFailed (es : List Event) : Nat :=
  (es.filter fun e =>
    match e with
    | .callLookupFailed _ _ _ => true
    | _ => false).length

/-- The live (non-tombstone) task stored at an agenda address. -/
def liveAt (st : State) (w i : Nat) : Option Scheduled :=
  match (st.agenda w).get? i with
  | some (some s) => some s
  | _ => none

/-! ### Concrete fixtures used by counterexamples, witnesses and scenarios -/

/-- An unsigned origin of rank 0. -/
def orgU : Origin := { rank := 0, signed := false }

/-- A small inline call: weight 5, succeeds, no reported actual weight. -/
def smallCall : Call := { weight := 5, dispatchOk := true, actualWeight := none, encLen := 1 }

/-- An expensive inline call: weight 100. -/
def bigCall : Call := { weight := 100, dispatchOk := true, actualWeight := none, encLen := 1 }

/-- A call whose encoding (201 bytes) exceeds the `maxCallLen` of `cfgTriv`. -/
def hugeCall : Call := { weight := 1, dispatchOk := true, actualWeight := none, encLen := 200 }

/-- A benign base configuration: large budget, roomy slots, equal privileges,
no preimages registered, unit marginal item weight. -/
def cfgTriv : Config :=
  { maximumWeight := 1000, maxScheduledPerBlock := 10, maxCallLen := 100,
    noPreimagePostponement := none, cmpPrivilege := fun _ _ => some .eq,
    preimages := fun _ => none, baseWeight := 0,
    itemWeight := fun _ _ _ => 1, dbWeight := 1 }

/-- The empty storage state. -/
def emptyState : State :=
  { agenda := fun _ => [], lookup := fun _ => none, requests := [], events := [] }

/-! ### C9 — target-slot resolution -/

/-- C9: `resolve_time` rejects an absolute slot that is at or before the
current slot with the time-in-past error, maps a relative delay `d` to
`current + d + 1`, and every successfully resolved slot is strictly after the
current slot. -/
theorem C9_thm :
    (∀ now x, x ≤ now → resolve_time now (.At x) = .error .targetBlockNumberInPast) ∧
    (∀ now x, now < x → resolve_time now (.At x) = .ok x) ∧
    (∀ now d, resolve_time now (.After d) = .ok (now + d + 1)) ∧
    (∀ now t w, resolve_time now t = .ok w → now < w) := by
  refine ⟨?_, ?_, ?_, ?_⟩
  · intro now x h
    simp [resolve_time, h]
  · intro now x h
    simp [resolve_time, Nat.not_le.mpr h]
  · intro now d
    have h : ¬ now + d + 1 ≤ now := by omega
    simp [resolve_time, h]
  · intro now t w h
    cases t with
    | At x =>
      by_cases hx : x ≤ now
      · simp [resolve_time, hx] at h
      · simp [resolve_time, hx] at h
        omega
    | After x =>
      have hx : ¬ now + x + 1 ≤ now := by omega
      simp [resolve_time, hx] at h
      omega

/-- Witness for C9 at concrete inputs. -/
theorem C9_thm_w :
    resolve_time 5 (.At 4) = .error .targetBlockNumberInPast ∧
    resolve_time 5 (.At 9) = .ok 9 ∧
    resolve_time 5 (.After 3) = .ok 9 ∧ 5 < 9 :=
  ⟨C9_thm.1 5 4 (by decide), C9_thm.2.1 5 9 (by decide), C9_thm.2.2.1 5 3,
   C9_thm.2.2.2 5 (.After 3) 9 (C9_thm.2.2.1 5 3)⟩

/-! ### C10 — cancel_named does not require a live agenda entry -/

theorem set_eq_of_getq_some {α : Type} :
    ∀ (l : List α) (i : Nat) (a : α), l.get? i = some a → l.set i a = l := by
  intro l
  induction l with
  | nil => intro i a h; simp at h
  | cons x xs ih =>
    intro i a h
    cases i with
    | zero => simp_all
    | succ j => simp_all

theorem set_eq_of_getq_none {α : Type} :
    ∀ (l : List α) (i : Nat) (a : α), l.get? i = none → l.set i a = l := by
  intro l
  induction l with
  | nil => intro i a _; simp
  | cons x xs ih =>
    intro i a h
    cases i with
    | zero => simp at h
    | succ j => simp_all

theorem upd_self {κ α : Type} [DecidableEq κ] (f : κ → α) (k : κ) :
    upd f k (f k) = f := by
  funext x
  by_cases h : x = k <;> simp [upd, h]

/-- C10: for every name in the `Lookup` index whose recorded address holds a
tombstone or is out of range, `do_cancel_named` (with or without an
authorization context) succeeds, removes the `Lookup` entry, emits one
`Canceled` event, and changes nothing else — the existence of a live task is
never checked. -/
theorem C10_thm (cfg : Config) (origin : Option Origin) (id : List Nat)
    (when index : Nat) (st : State)
    (hl : st.lookup id = some (when, index))
    (hdead : (st.agenda when).get? index = some none ∨
             (st.agenda when).get? index = none) :
    do_cancel_named cfg origin id st =
      (.ok (), { st with lookup := upd st.lookup id none,
                         events := st.events ++ [.canceled when index] }) := by
  have hagset : upd st.agenda when ((st.agenda when).set index none) = st.agenda := by
    rcases hdead with h | h
    · rw [set_eq_of_getq_some _ _ _ h, upd_self]
    · rw [set_eq_of_getq_none _ _ _ h, upd_self]
  rcases hdead with h | h <;> rw [List.get?_eq_getElem?] at h
  · cases origin with
    | some o => simp [do_cancel_named, hl, h, hagset]
    | none => simp [do_cancel_named, hl, h, hagset]
  · simp [do_cancel_named, hl, h]

/-- A state with only a name-index entry pointing at a tombstone. -/
def c10st : State :=
  { agenda := upd (fun _ => []) 5 [none],
    lookup := upd (fun _ => none) [3] (some (5, 0)),
    requests := [], events := [] }

/-- Witness for C10: cancelling the dangling name `[3]`, with an
authorization context supplied, succeeds. -/
theorem C10_thm_w :
    do_cancel_named cfgTriv (some orgU) [3] c10st =
      (.ok (), { c10st with lookup := upd c10st.lookup [3] none,
                            events := c10st.events ++ [.canceled 5 0] }) :=
  C10_thm cfgTriv (some orgU) [3] 5 0 c10st (by decide) (Or.inl (by decide))

/-! ### C4 — the tick engine can abort (reachable panic branches) -/

/-- Configuration where hash 7 resolves to a call whose encoding exceeds
`maxCallLen`. -/
def cfg4a : Config := { cfgTriv with preimages := upd (fun _ => none) 7 (some hugeCall) }

/-- A single task stored as hash reference 7. -/
def ag4a : Nat → List (Option Scheduled) :=
  upd (fun _ => []) 1
    [some { maybe_id := none, priority := 100, call := .hash 7,
            maybe_periodic := none, origin := orgU }]

def st4a : State := { emptyState with agenda := ag4a }

/-- Tight budget and per-slot capacity 2. -/
def cfg4b : Config := { cfgTriv with maximumWeight := 10, maxScheduledPerBlock := 2 }

/-- Two due tasks at slot 1 (the second over budget) while slot 2 is full. -/
def ag4b : Nat → List (Option Scheduled) :=
  upd
    (upd (fun _ => []) 1
      [some { maybe_id := none, priority := 100, call := .value smallCall,
              maybe_periodic := none, origin := orgU },
       some { maybe_id := none, priority := 101, call := .value bigCall,
              maybe_periodic := none, origin := orgU }])
    2 [none, none]

def st4b : State := { emptyState with agenda := ag4b }

/-- C4: the tick engine's internal error branches are reachable and abort the
whole tick: a hash task whose resolved call re-encodes beyond `MaxCallLen`
hits `expect("todo")`, and a budget-deferred task whose next-slot agenda is
full hits `expect("TODO Failed to schedule future block")`.  Contrary to the
claim, `on_init` does not always complete with a total weight. -/
theorem C4_thm :
    errorOf (on_init cfg4a 1 st4a) = some "todo" ∧
    errorOf (on_init cfg4b 1 st4b) =
      some "TODO Failed to schedule future block" := by
  constructor <;> decide

/-! ### C1 — the admission test uses a hard-deadline band, not equality -/

/-- Budget limit 50; two inline tasks at slot 1 with priorities 4 and 5, the
second costing 100. -/
def cfg1c : Config := { cfgTriv with maximumWeight := 50 }

def ag1c : Nat → List (Option Scheduled) :=
  upd (fun _ => []) 1
    [some { maybe_id := none, priority := 4, call := .value smallCall,
            maybe_periodic := none, origin := orgU },
     some { maybe_id := none, priority := 5, call := .value bigCall,
            maybe_periodic := none, origin := orgU }]

def st1c : State := { emptyState with agenda := ag1c }

/-- C1 counterexample: the task with priority 5 (≠ `HARD_DEADLINE` = 63) at
order position 1 is over budget (6 + 100 + 1 > 50), so the claim's admission
condition is false for it, yet the code dispatches it in the same tick
(because `priority <= HARD_DEADLINE`). -/
theorem C1_cex :
    eventsAfter (on_init cfg1c 1 st1c) =
      some [.dispatched 1 0 none true, .dispatched 1 1 none true] ∧
    weightAfter (on_init cfg1c 1 st1c) = some 107 ∧
    deferCondition cfg1c 5 1 (6 + 100 + 1) = false ∧
    ¬ ((5 : Nat) = HARD_DEADLINE ∨ (1 : Nat) = 0 ∨
       6 + 1 + 100 ≤ cfg1c.maximumWeight) := by
  refine ⟨by rfl, by rfl, by rfl, by decide⟩

/-! ### C2 — reschedule by address does not move the name-index entry -/

/-- A named task (`[1]`) at address (2, 0) with a consistent lookup entry. -/
def s2c : Scheduled :=
  { maybe_id := some [1], priority := 100, call := .value smallCall,
    maybe_periodic := none, origin := orgU }

def st2c : State :=
  { emptyState with
    agenda := upd (fun _ => []) 2 [some s2c],
    lookup := upd (fun _ => none) [1] (some (2, 0)) }

/-- C2 counterexample: after rescheduling the named task from (2, 0) to slot
5, the task lives at (5, 0) but its `Lookup` entry still reads (2, 0) — the
two stores disagree, falsifying the invariant for the `reschedule` operation. -/
theorem C2_cex :
    (do_reschedule cfgTriv 1 2 0 (.At 5) st2c).1 = .ok (5, 0) ∧
    liveAt (do_reschedule cfgTriv 1 2 0 (.At 5) st2c).2 5 0 = some s2c ∧
    s2c.maybe_id = some [1] ∧
    (do_reschedule cfgTriv 1 2 0 (.At 5) st2c).2.lookup [1] = some (2, 0) ∧
    liveAt (do_reschedule cfgTriv 1 2 0 (.At 5) st2c).2 2 0 = none := by
  refine ⟨by rfl, by rfl, by rfl, by rfl, by rfl⟩

/-! ### C3 — no "Lookup failed" notification is ever emitted -/

/-- Postponement delay 3 configured; no preimages available. -/
def cfg3c : Config := { cfgTriv with noPreimagePostponement := some 3 }

/-- A named task stored as unresolvable hash reference 7, due at slot 1. -/
def s3c : Scheduled :=
  { maybe_id := some [9], priority := 100, call := .hash 7,
    maybe_periodic := none, origin := orgU }

def st3c : State :=
  { emptyState with
    agenda := upd (fun _ => []) 1 [some s3c],
    lookup := upd (fun _ => none) [9] (some (1, 0)),
    requests := [7] }

/-- C3 counterexample: the unresolved task is postponed to slot 1 + 3 = 4 with
its name-index entry re-added there, but the tick emits no event at all — in
particular not exactly one `CallLookupFailed` as the claim states. -/
theorem C3_cex :
    cfg3c.preimages 7 = none ∧
    cfg3c.noPreimagePostponement = some 3 ∧
    eventsAfter (on_init cfg3c 1 st3c) = some [] ∧
    (eventsAfter (on_init cfg3c 1 st3c)).map countLookupFailed = some 0 ∧
    agendaAfter (on_init cfg3c 1 st3c) 4 = some [some s3c] ∧
    lookupAfter (on_init cfg3c 1 st3c) [9] = some (some (4, 0)) := by
  refine ⟨by rfl, by rfl, by rfl, by rfl, by rfl, by rfl⟩

/-! ### C5 — schedule requests the preimage before its fallible steps -/

/-- Per-slot capacity 0: every insertion fails. -/
def cfg5c : Config := { cfgTriv with maxScheduledPerBlock := 0 }

/-- C5 counterexample: `do_schedule` of a hash payload fails with the capacity
error, yet the payload resolver's reference count has been incremented (the
request is not rolled back by the function). -/
theorem C5_cex :
    (do_schedule cfg5c 1 (.At 5) none 100 orgU (.hash 7) emptyState).1 =
      .error .tooManyAgendas ∧
    (do_schedule cfg5c 1 (.At 5) none 100 orgU (.hash 7) emptyState).2.requests = [7] ∧
    emptyState.requests = [] := by
  refine ⟨by rfl, by rfl, by rfl⟩

/-! ### C8 — cancel_named without an authorization context skips the release -/

/-- A named task (`[5]`) with hash payload 7, reference counted once. -/
def s8c : Scheduled :=
  { maybe_id := some [5], priority := 100, call := .hash 7,
    maybe_periodic := none, origin := orgU }

def st8c : State :=
  { emptyState with
    agenda := upd (fun _ => []) 2 [some s8c],
    lookup := upd (fun _ => none) [5] (some (2, 0)),
    requests := [7] }

/-- C8 counterexample: `do_cancel_named` without an authorization context
succeeds on a hash-based task, but the payload resolver is never told to
release the reference (the request multiset is unchanged, although a release
would have emptied it). -/
theorem C8_cex :
    (do_cancel_named cfgTriv none [5] st8c).1 = .ok () ∧
    s8c.call = .hash 7 ∧
    (do_cancel_named cfgTriv none [5] st8c).2.requests = [7] ∧
    unrequestCall st8c.requests s8c.call = [] := by
  refine ⟨by rfl, by rfl, by rfl, by rfl⟩

/-! ### C7 — stable priority ordering -/

/-- Ordering of queued entries by ascending task priority. -/
def PrioLE (a b : Nat × Scheduled) : Prop := a.2.priority ≤ b.2.priority

/-- Entries that agree on original index and priority (but may differ in any
other task field). -/
def SamePrio (a b : Nat × Scheduled) : Prop := a.1 = b.1 ∧ a.2.priority = b.2.priority

theorem insPrio_perm (x : Nat × Scheduled) (l : List (Nat × Scheduled)) :
    (insPrio x l).Perm (x :: l) := by
  induction l with
  | nil => exact List.Perm.refl _
  | cons y ys ih =>
    by_cases h : y.2.priority < x.2.priority
    · simp only [insPrio, if_pos h]
      exact (ih.cons y).trans (List.Perm.swap x y ys)
    · simp only [insPrio, if_neg h]
      exact List.Perm.refl _

theorem sortByPrio_perm (l : List (Nat × Scheduled)) : (sortByPrio l).Perm l := by
  induction l with
  | nil => exact List.Perm.refl _
  | cons x xs ih => exact (insPrio_perm x (sortByPrio xs)).trans (ih.cons x)

theorem insPrio_sorted (x : Nat × Scheduled) (l : List (Nat × Scheduled))
    (h : l.Pairwise PrioLE) : (insPrio x l).Pairwise PrioLE := by
  induction l with
  | nil => simp [insPrio]
  | cons y ys ih =>
    rcases List.pairwise_cons.mp h with ⟨hy, hys⟩
    by_cases hlt : y.2.priority < x.2.priority
    · simp only [insPrio, if_pos hlt]
      refine List.pairwise_cons.mpr ⟨?_, ih hys⟩
      intro z hz
      rcases List.mem_cons.mp ((insPrio_perm x ys).mem_iff.mp hz) with rfl | hzys
      · exact Nat.le_of_lt hlt
      · exact hy z hzys
    · simp only [insPrio, if_neg hlt]
      refine List.pairwise_cons.mpr ⟨?_, h⟩
      intro z hz
      rcases List.mem_cons.mp hz with rfl | hzys
      · exact Nat.le_of_not_lt hlt
      · exact Nat.le_trans (Nat.le_of_not_lt hlt) (hy z hzys)

theorem sortByPrio_sorted (l : List (Nat × Scheduled)) :
    (sortByPrio l).Pairwise PrioLE := by
  induction l with
  | nil => simp [sortByPrio]
  | cons x xs ih => exact insPrio_sorted x (sortByPrio xs) ih

theorem insPrio_filter (p : Nat) (x : Nat × Scheduled) (l : List (Nat × Scheduled)) :
    (insPrio x l).filter (fun e => e.2.priority == p) =
      if x.2.priority = p then x :: l.filter (fun e => e.2.priority == p)
      else l.filter (fun e => e.2.priority == p) := by
  induction l with
  | nil =>
    by_cases h : x.2.priority = p <;>
      simp [insPrio, List.filter_cons, beq_iff_eq, h]
  | cons y ys ih =>
    by_cases hlt : y.2.priority < x.2.priority
    · simp only [insPrio, if_pos hlt, List.filter_cons]
      by_cases hx : x.2.priority = p
      · have hy : ¬ y.2.priority = p := by omega
        simp [hx, hy, ih]
      · by_cases hy : y.2.priority = p <;> simp [hx, hy, ih]
    · simp only [insPrio, if_neg hlt, List.filter_cons]
      by_cases hx : x.2.priority = p <;> simp [hx]

theorem sortByPrio_filter (p : Nat) (l : List (Nat × Scheduled)) :
    (sortByPrio l).filter (fun e => e.2.priority == p) =
      l.filter (fun e => e.2.priority == p) := by
  induction l with
  | nil => rfl
  | cons x xs ih =>
    rw [sortByPrio, insPrio_filter, List.filter_cons]
    by_cases h : x.2.priority = p <;> simp [h, ih]

theorem insPrio_congr {x₁ x₂ : Nat × Scheduled} {l₁ l₂ : List (Nat × Scheduled)}
    (hx : SamePrio x₁ x₂) (hl : List.Forall₂ SamePrio l₁ l₂) :
    List.Forall₂ SamePrio (insPrio x₁ l₁) (insPrio x₂ l₂) := by
  induction hl with
  | nil => exact List.Forall₂.cons hx List.Forall₂.nil
  | @cons y₁ y₂ ys₁ ys₂ hy hys ih =>
    by_cases h : y₁.2.priority < x₁.2.priority
    · have h₂ : y₂.2.priority < x₂.2.priority := by
        rw [← hy.2, ← hx.2]; exact h
      simp only [insPrio, if_pos h, if_pos h₂]
      exact List.Forall₂.cons hy ih
    · have h₂ : ¬ y₂.2.priority < x₂.2.priority := by
        rw [← hy.2, ← hx.2]; exact h
      simp only [insPrio, if_neg h, if_neg h₂]
      exact List.Forall₂.cons hx (List.Forall₂.cons hy hys)

theorem sortByPrio_congr {l₁ l₂ : List (Nat × Scheduled)}
    (h : List.Forall₂ SamePrio l₁ l₂) :
    List.Forall₂ SamePrio (sortByPrio l₁) (sortByPrio l₂) := by
  induction h with
  | nil => exact List.Forall₂.nil
  | cons hx _ ih => exact insPrio_congr hx ih

/-- Generous budget; the agenda at slot 1 holds priorities [5, 1, ·, 3] with a
tombstone at index 2. -/
def ag7c : Nat → List (Option Scheduled) :=
  upd (fun _ => []) 1
    [some { maybe_id := none, priority := 5, call := .value smallCall,
            maybe_periodic := none, origin := orgU },
     some { maybe_id := none, priority := 1, call := .value smallCall,
            maybe_periodic := none, origin := orgU },
     none,
     some { maybe_id := none, priority := 3, call := .value smallCall,
            maybe_periodic := none, origin := orgU }]

def st7c : State := { emptyState with agenda := ag7c }

/-- C7: the tick engine's ordering is the stable ascending-priority sort of
the tombstone-discarded queue: it is sorted by priority, it is a permutation
of the live entries, entries of equal priority keep their original relative
(slot-index) order, and no task field other than the priority (together with
the tie-breaking original index) influences the order.  Concretely, tasks with
priorities [5, 1, 3] (with a tombstone in between) dispatch in priority order
[1, 3, 5] under a sufficient budget. -/
theorem C7_thm :
    (∀ l, (sortByPrio l).Pairwise PrioLE) ∧
    (∀ l, (sortByPrio l).Perm l) ∧
    (∀ l p, (sortByPrio l).filter (fun e => e.2.priority == p) =
      l.filter (fun e => e.2.priority == p)) ∧
    (∀ l₁ l₂, List.Forall₂ SamePrio l₁ l₂ →
      List.Forall₂ SamePrio (sortByPrio l₁) (sortByPrio l₂)) ∧
    eventsAfter (on_init cfgTriv 1 st7c) =
      some [.dispatched 1 1 none true, .dispatched 1 3 none true,
            .dispatched 1 0 none true] := by
  refine ⟨sortByPrio_sorted, sortByPrio_perm, fun l p => sortByPrio_filter p l,
    fun _ _ h => sortByPrio_congr h, by rfl⟩

/-- Witness for C7 at concrete inputs. -/
theorem C7_thm_w :
    List.Forall₂ SamePrio
      (sortByPrio [(0, { maybe_id := none, priority := 9, call := .value smallCall,
                         maybe_periodic := none, origin := orgU })])
      (sortByPrio [(0, { maybe_id := some [2], priority := 9, call := .hash 7,
                         maybe_periodic := none, origin := orgU })]) :=
  C7_thm.2.2.2.1 _ _ (List.Forall₂.cons ⟨rfl, rfl⟩ List.Forall₂.nil)

/-! ### C6 — periodic normalisation and exhaustion -/

/-- Advance one tick, keeping the state unchanged if the engine aborted
(used only to chain concrete scenario runs). -/
def stepState (cfg : Config) (now : Nat) (st : State) : State :=
  match on_init cfg now st with
  | .ok (_, st') => st'
  | .error _ => st

/-- The periodic task of the C6 scenario, with a given periodic descriptor. -/
def task6 (mp : Option (Nat × Nat)) : Scheduled :=
  { maybe_id := none, priority := 100, call := .value smallCall,
    maybe_periodic := mp, origin := orgU }

/-- State after `schedule(at 5, periodic := (2, 3))` from the empty state at
current slot 1. -/
def st6a : State :=
  (do_schedule cfgTriv 1 (.At 5) (some (2, 3)) 100 orgU (.value smallCall)
    emptyState).2

def st6b : State := stepState cfgTriv 5 st6a
def st6c : State := stepState cfgTriv 6 st6b
def st6d : State := stepState cfgTriv 7 st6c
def st6e : State := stepState cfgTriv 8 st6d
def st6f : State := stepState cfgTriv 9 st6e

/-- C6: `do_schedule` stores a periodic descriptor exactly when the period is
non-zero and the count exceeds 1, pre-decremented by one; descriptors written
by the schedule normalisation or by the tick engine's re-enqueue step always
have a remaining count of at least 1 (never 0); and scheduling with periodic
(period 2, count 3) at slot 5 dispatches at slots 5, 7, 9 with no copy of the
task left afterwards. -/
theorem C6_thm :
    (∀ p c, 0 < p → 1 < c → sanitizePeriodic (some (p, c)) = some (p, c - 1)) ∧
    (∀ p c, ¬ (0 < p ∧ 1 < c) → sanitizePeriodic (some (p, c)) = none) ∧
    sanitizePeriodic none = none ∧
    (∀ pc q, sanitizePeriodic pc = some q → 1 ≤ q.2) ∧
    (∀ pc q, nextPeriodic pc = some q → 1 ≤ q.2) ∧
    (do_schedule cfgTriv 1 (.At 5) (some (2, 3)) 100 orgU (.value smallCall)
      emptyState).1 = .ok (5, 0) ∧
    liveAt st6a 5 0 = some (task6 (some (2, 2))) ∧
    errorOf (on_init cfgTriv 5 st6a) = none ∧
    errorOf (on_init cfgTriv 6 st6b) = none ∧
    errorOf (on_init cfgTriv 7 st6c) = none ∧
    errorOf (on_init cfgTriv 8 st6d) = none ∧
    errorOf (on_init cfgTriv 9 st6e) = none ∧
    liveAt st6b 7 0 = some (task6 (some (2, 1))) ∧
    liveAt st6d 9 0 = some (task6 none) ∧
    st6f.events =
      [.scheduled 5 0, .dispatched 5 0 none true,
       .dispatched 7 0 none true, .dispatched 9 0 none true] ∧
    st6f.agenda 5 = [] ∧ st6f.agenda 7 = [] ∧ st6f.agenda 9 = [] ∧
    st6f.agenda 11 = [] := by
  refine ⟨?_, ?_, rfl, ?_, ?_, by rfl, by rfl, by rfl, by rfl, by rfl, by rfl,
    by rfl, by rfl, by rfl, by rfl, by rfl, by rfl, by rfl, by rfl⟩
  · intro p c hp hc
    simp [sanitizePeriodic, hc, Nat.pos_iff_ne_zero.mp hp]
  · intro p c h
    have : ¬ (1 < c ∧ p ≠ 0) := by omega
    simp [sanitizePeriodic, this]
  · intro pc q h
    match pc with
    | none => simp [sanitizePeriodic] at h
    | some (p, c) =>
      by_cases hc : 1 < c ∧ p ≠ 0
      · simp only [sanitizePeriodic, if_pos hc] at h
        cases h
        show 1 ≤ c - 1
        omega
      · simp [sanitizePeriodic, hc] at h
  · intro pc q h
    by_cases hc : 1 < pc.2
    · simp only [nextPeriodic, if_pos hc] at h
      cases h
      show 1 ≤ pc.2 - 1
      omega
    · simp [nextPeriodic, hc] at h

/-- Witness for C6's normalisation clauses at concrete inputs. -/
theorem C6_thm_w :
    sanitizePeriodic (some (2, 3)) = some (2, 2) ∧
    sanitizePeriodic (some (0, 3)) = none ∧
    1 ≤ (2 : Nat) ∧ 1 ≤ (1 : Nat) :=
  ⟨C6_thm.1 2 3 (by decide) (by decide),
   C6_thm.2.1 0 3 (by decide),
   C6_thm.2.2.2.1 (some (2, 3)) (2, 2) (C6_thm.1 2 3 (by decide) (by decide)),
   C6_thm.2.2.2.2.1 (2, 2) (2, 1) (by decide)⟩

/-! ### C1 — the admission rule -/

theorem removeNameStep_events (st : State) (mid : Option (List Nat)) :
    (removeNameStep st mid).events = st.events := by
  cases mid <;> rfl

theorem removeNameStep_agenda (st : State) (mid : Option (List Nat)) :
    (removeNameStep st mid).agenda = st.agenda := by
  cases mid <;> rfl

theorem removeNameStep_requests (st : State) (mid : Option (List Nat)) :
    (removeNameStep st mid).requests = st.requests := by
  cases mid <;> rfl

theorem insertLookupFor_events (st : State) (mid : Option (List Nat)) (w : Nat) :
    (insertLookupFor st mid w).events = st.events := by
  cases mid <;> rfl

theorem insertLookupFor_agenda (st : State) (mid : Option (List Nat)) (w : Nat) :
    (insertLookupFor st mid w).agenda = st.agenda := by
  cases mid <;> rfl

theorem reinsert_ok_events {cfg : Config} {st : State} {w : Nat} {s : Scheduled}
    {st2 : State} (h : reinsert cfg st w s = .ok st2) : st2.events = st.events := by
  unfold reinsert appendTask at h
  cases htry : tryAppendA cfg (insertLookupFor st s.maybe_id w).agenda w (some s) with
  | none => rw [htry] at h; exact absurd h (by simp)
  | some ag =>
    rw [htry] at h
    cases h
    exact insertLookupFor_events st s.maybe_id w

/-- The negation of the deferral branch condition, spelled out: the task is
admitted iff its priority is in the hard-deadline band (≤ `HARD_DEADLINE`), or
it is the first processed task, or it fits the budget. -/
theorem deferCondition_false_iff (cfg : Config) (p o t : Nat) :
    deferCondition cfg p o t = false ↔
      (p ≤ HARD_DEADLINE ∨ o = 0 ∨ t ≤ cfg.maximumWeight) := by
  simp [deferCondition, HARD_DEADLINE]
  omega

/-- Budget limit 10; a single task of weight 100 alone in slot 1. -/
def cfgFP : Config := { cfgTriv with maximumWeight := 10 }

def agFP : Nat → List (Option Scheduled) :=
  upd (fun _ => []) 1
    [some { maybe_id := none, priority := 100, call := .value bigCall,
            maybe_periodic := none, origin := orgU }]

def stFP : State := { emptyState with agenda := agFP }

/-- C1 (amended): a processed task is admitted (dispatched this tick) iff its
priority is at most `HARD_DEADLINE` (the hard-deadline band — not only
equality), or it is the first task processed this tick, or the spent budget
plus its item cost plus its content cost fits the budget limit; in particular
a single over-budget task alone in its slot is still dispatched. -/
theorem C1_thm :
    (∀ cfg p o t, deferCondition cfg p o t = false ↔
      (p ≤ HARD_DEADLINE ∨ o = 0 ∨ t ≤ cfg.maximumWeight)) ∧
    (∀ cfg now next order index (s : Scheduled) total (st : State) c comp,
      resolvedCall cfg s.call = (.value c, comp) →
      1 + c.encLen ≤ cfg.maxCallLen →
      st.events = [] →
      errorOf (processTask cfg now next order index s total st) = none →
      ((eventsAfter (processTask cfg now next order index s total st) =
          some [.dispatched now index s.maybe_id c.dispatchOk]) ↔
        (s.priority ≤ HARD_DEADLINE ∨ order = 0 ∨
          total + c.weight +
            (cfg.itemWeight s.maybe_periodic.isSome s.maybe_id.isSome
                (some comp.isSome) +
              (if s.origin.signed then cfg.dbWeight else 0)) ≤
            cfg.maximumWeight))) ∧
    eventsAfter (on_init cfgFP 1 stFP) = some [.dispatched 1 0 none true] ∧
    cfgFP.maximumWeight < bigCall.weight := by
  refine ⟨deferCondition_false_iff, ?_, by rfl, by decide⟩
  intro cfg now next order index s total st c comp hr henc hev hok
  have hnoc : ∀ st2 : State, reinsert cfg st2 next
      { s with call := MHCall.value c } = reinsert cfg st2 next
      { s with call := MHCall.value c } := fun _ => rfl
  clear hnoc
  cases comp with
  | none =>
    cases hmp : s.maybe_periodic with
    | none =>
      simp only [processTask, hr, hmp, MHCall.encLen, asValue,
        Option.isSome_none, Option.isSome_some] at hok ⊢
      rw [if_pos henc] at hok ⊢
      set sgw := (if s.origin.signed = true then cfg.dbWeight else 0) with hsgw
      split at hok
      · rename_i hd
        rw [if_pos hd]
        split at hok
        · rename_i st2 hre
          have hse : st2.events = [] := by
            rw [reinsert_ok_events hre, removeNameStep_events, hev]
          refine iff_of_false (by simp [eventsAfter, hse]) ?_
          intro hadm
          have hdf := (deferCondition_false_iff cfg s.priority order _).mpr hadm
          rw [hdf] at hd
          simp at hd
        · rename_i e hre
          simp [errorOf] at hok
      · rename_i hd
        rw [if_neg hd]
        refine iff_of_true (by simp [eventsAfter, removeNameStep_events, hev]) ?_
        refine (deferCondition_false_iff cfg s.priority order _).mp ?_
        revert hd
        cases deferCondition cfg s.priority order _ <;> simp
    | some pc =>
      simp only [processTask, hr, hmp, MHCall.encLen, asValue,
        Option.isSome_none, Option.isSome_some] at hok ⊢
      rw [if_pos henc] at hok ⊢
      set sgw := (if s.origin.signed = true then cfg.dbWeight else 0) with hsgw
      split at hok
      · rename_i hd
        rw [if_pos hd]
        split at hok
        · rename_i st2 hre
          have hse : st2.events = [] := by
            rw [reinsert_ok_events hre, removeNameStep_events, hev]
          refine iff_of_false (by simp [eventsAfter, hse]) ?_
          intro hadm
          have hdf := (deferCondition_false_iff cfg s.priority order _).mpr hadm
          rw [hdf] at hd
          simp at hd
        · rename_i e hre
          simp [errorOf] at hok
      · rename_i hd
        rw [if_neg hd]
        split at hok
        · rename_i st4 hre
          have hse : st4.events = [Event.dispatched now index s.maybe_id c.dispatchOk] := by
            rw [reinsert_ok_events hre]
            simp [removeNameStep_events, hev]
          refine iff_of_true (by simp [eventsAfter, hse]) ?_
          refine (deferCondition_false_iff cfg s.priority order _).mp ?_
          revert hd
          cases deferCondition cfg s.priority order _ <;> simp
        · rename_i e hre
          simp [errorOf] at hok
  | some hh =>
    cases hmp : s.maybe_periodic with
    | none =>
      simp only [processTask, hr, hmp, MHCall.encLen, asValue,
        Option.isSome_none, Option.isSome_some] at hok ⊢
      rw [if_pos henc] at hok ⊢
      set sgw := (if s.origin.signed = true then cfg.dbWeight else 0) with hsgw
      split at hok
      · rename_i hd
        rw [if_pos hd]
        split at hok
        · rename_i st2 hre
          have hse : st2.events = [] := by
            rw [reinsert_ok_events hre]
            simp [removeNameStep_events, hev]
          refine iff_of_false (by simp [eventsAfter, hse]) ?_
          intro hadm
          have hdf := (deferCondition_false_iff cfg s.priority order _).mpr hadm
          rw [hdf] at hd
          simp at hd
        · rename_i e hre
          simp [errorOf] at hok
      · rename_i hd
        rw [if_neg hd]
        refine iff_of_true (by simp [eventsAfter, removeNameStep_events, hev]) ?_
        refine (deferCondition_false_iff cfg s.priority order _).mp ?_
        revert hd
        cases deferCondition cfg s.priority order _ <;> simp
    | some pc =>
      simp only [processTask, hr, hmp, MHCall.encLen, asValue,
        Option.isSome_none, Option.isSome_some] at hok ⊢
      rw [if_pos henc] at hok ⊢
      set sgw := (if s.origin.signed = true then cfg.dbWeight else 0) with hsgw
      split at hok
      · rename_i hd
        rw [if_pos hd]
        split at hok
        · rename_i st2 hre
          have hse : st2.events = [] := by
            rw [reinsert_ok_events hre]
            simp [removeNameStep_events, hev]
          refine iff_of_false (by simp [eventsAfter, hse]) ?_
          intro hadm
          have hdf := (deferCondition_false_iff cfg s.priority order _).mpr hadm
          rw [hdf] at hd
          simp at hd
        · rename_i e hre
          simp [errorOf] at hok
      · rename_i hd
        rw [if_neg hd]
        split at hok
        · rename_i st4 hre
          have hse : st4.events = [Event.dispatched now index s.maybe_id c.dispatchOk] := by
            rw [reinsert_ok_events hre]
            simp [removeNameStep_events, hev]
          refine iff_of_true (by simp [eventsAfter, hse]) ?_
          refine (deferCondition_false_iff cfg s.priority order _).mp ?_
          revert hd
          cases deferCondition cfg s.priority order _ <;> simp
        · rename_i e hre
          simp [errorOf] at hok

/-- Task used by the C1 witness. -/
def wTask1 : Scheduled :=
  { maybe_id := none, priority := 100, call := .value smallCall,
    maybe_periodic := none, origin := orgU }

/-- Witness for C1 at a concrete input: a resolvable task processed at order
position 1 with plenty of budget. -/
theorem C1_thm_w :
    (eventsAfter (processTask cfgTriv 1 2 1 0 wTask1 0 emptyState) =
        some [.dispatched 1 0 wTask1.maybe_id smallCall.dispatchOk]) ↔
      (wTask1.priority ≤ HARD_DEADLINE ∨ (1 : Nat) = 0 ∨
        0 + smallCall.weight +
          (cfgTriv.itemWeight wTask1.maybe_periodic.isSome wTask1.maybe_id.isSome
              (some (Option.isSome (none : Option Nat))) +
            (if wTask1.origin.signed then cfgTriv.dbWeight else 0)) ≤
          cfgTriv.maximumWeight) :=
  C1_thm.2.1 cfgTriv 1 2 1 0 wTask1 0 emptyState smallCall none rfl (by decide)
    rfl (by decide)

/-! ### C3 — unresolved payloads: postponement without any notification -/

theorem upd_same {κ α : Type} [DecidableEq κ] (f : κ → α) (k : κ) (v : α) :
    upd f k v k = v := by
  simp [upd]

theorem upd_ne {κ α : Type} [DecidableEq κ] (f : κ → α) (k : κ) (v : α)
    (x : κ) (h : x ≠ k) : upd f k v x = f x := by
  simp [upd, h]

/-- A tick over a slot holding exactly one (live) task runs exactly one loop
iteration. -/
theorem on_init_singleton (cfg : Config) (now : Nat) (st : State)
    (s : Scheduled) (hag : st.agenda now = [some s]) :
    on_init cfg now st =
      processTask cfg now (now + 1) 0 0 s cfg.baseWeight
        { st with agenda := upd st.agenda now [] } := by
  have hmain : on_init cfg now st =
      initLoop cfg now (now + 1) [(0, 0, s)] cfg.baseWeight
        { st with agenda := upd st.agenda now [] } := by
    unfold on_init
    rw [hag]
    rfl
  rw [hmain]
  show (match processTask cfg now (now + 1) 0 0 s cfg.baseWeight
          { st with agenda := upd st.agenda now [] } with
        | .error e => Except.error e
        | .ok (t, st') => initLoop cfg now (now + 1) [] t st') = _
  cases processTask cfg now (now + 1) 0 0 s cfg.baseWeight
      { st with agenda := upd st.agenda now [] } with
  | error e => rfl
  | ok p => cases p; rfl

/-- C3 (amended): for a task whose hash payload cannot be resolved, the
aborted-item cost is charged; with a postponement delay `d` configured the
same task is re-inserted unchanged into slot `now + d` and the name-index
entry is re-added to point there; with no delay the task is dropped and its
name freed; but in both cases no event at all — in particular no
`CallLookupFailed` — is emitted. -/
theorem C3_thm (cfg : Config) (now : Nat) (st : State) (s : Scheduled) (hh : Nat)
    (hag : st.agenda now = [some s])
    (hcall : s.call = .hash hh)
    (hpre : cfg.preimages hh = none)
    (hlen : 33 ≤ cfg.maxCallLen) :
    (∀ d, cfg.noPreimagePostponement = some d →
      ((upd st.agenda now []) (now + d)).length < cfg.maxScheduledPerBlock →
      weightAfter (on_init cfg now st) =
        some (cfg.baseWeight + cfg.itemWeight false s.maybe_id.isSome none) ∧
      agendaAfter (on_init cfg now st) (now + d) =
        some ((upd st.agenda now []) (now + d) ++ [some s]) ∧
      (∀ id, s.maybe_id = some id →
        lookupAfter (on_init cfg now st) id =
          some (some (now + d, ((upd st.agenda now []) (now + d)).length))) ∧
      eventsAfter (on_init cfg now st) = some st.events) ∧
    (cfg.noPreimagePostponement = none →
      weightAfter (on_init cfg now st) =
        some (cfg.baseWeight + cfg.itemWeight false s.maybe_id.isSome none) ∧
      (∀ w', agendaAfter (on_init cfg now st) w' =
        some ((upd st.agenda now []) w')) ∧
      (∀ id, s.maybe_id = some id →
        lookupAfter (on_init cfg now st) id = some none) ∧
      eventsAfter (on_init cfg now st) = some st.events) := by
  have hrun := on_init_singleton cfg now st s hag
  constructor
  · intro d hd hcap
    rw [hrun]
    cases hmid : s.maybe_id with
    | none =>
      refine ⟨?_, ?_, ?_, ?_⟩ <;>
        simp [processTask, hcall, resolvedCall, hpre, MHCall.encLen, asValue,
          hmid, hd, removeNameStep, reinsert, insertLookupFor, appendTask,
          tryAppendA, hlen, hcap, weightAfter, agendaAfter, lookupAfter,
          eventsAfter, upd_same] <;>
        rw [← hmid, ← hcall]
    | some id0 =>
      refine ⟨?_, ?_, ?_, ?_⟩ <;>
        simp [processTask, hcall, resolvedCall, hpre, MHCall.encLen, asValue,
          hmid, hd, removeNameStep, reinsert, insertLookupFor, appendTask,
          tryAppendA, hlen, hcap, weightAfter, agendaAfter, lookupAfter,
          eventsAfter, upd_same] <;>
        rw [← hmid, ← hcall]
  · intro hd
    rw [hrun]
    cases hmid : s.maybe_id with
    | none =>
      refine ⟨?_, ?_, ?_, ?_⟩ <;>
        simp [processTask, hcall, resolvedCall, hpre, MHCall.encLen, asValue,
          hmid, hd, removeNameStep, weightAfter, agendaAfter, lookupAfter,
          eventsAfter, hlen]
    | some id0 =>
      refine ⟨?_, ?_, ?_, ?_⟩ <;>
        simp [processTask, hcall, resolvedCall, hpre, MHCall.encLen, asValue,
          hmid, hd, removeNameStep, weightAfter, agendaAfter, lookupAfter,
          eventsAfter, hlen, upd_same]

/-- Witness for C3 at the concrete postponement scenario. -/
theorem C3_thm_w :
    weightAfter (on_init cfg3c 1 st3c) =
      some (cfg3c.baseWeight + cfg3c.itemWeight false s3c.maybe_id.isSome none) ∧
    agendaAfter (on_init cfg3c 1 st3c) (1 + 3) =
      some ((upd st3c.agenda 1 []) (1 + 3) ++ [some s3c]) ∧
    lookupAfter (on_init cfg3c 1 st3c) [9] =
      some (some (1 + 3, ((upd st3c.agenda 1 []) (1 + 3)).length)) ∧
    eventsAfter (on_init cfg3c 1 st3c) = some st3c.events := by
  have h := (C3_thm cfg3c 1 st3c s3c 7 (by decide) rfl rfl (by decide)).1 3 rfl
    (by decide)
  exact ⟨h.1, h.2.1, h.2.2.1 [9] rfl, h.2.2.2⟩

/-! ### C8 — effects of successful cancellation -/

/-- C8 (amended): a successful `do_cancel` (with or without an authorization
context) releases the payload reference, removes the name-index entry of a
named task, vacates the slot leaving a tombstone with all sibling indices
unchanged, and emits exactly one `Canceled` event.  A successful
`do_cancel_named` on a live entry does the same — but it tells the payload
resolver to release the reference only when an authorization context is
supplied; with no context the reference count is left untouched. -/
theorem C8_thm :
    (∀ cfg when index (st : State) (s : Scheduled),
      (st.agenda when).get? index = some (some s) →
      do_cancel cfg none when index st = (.ok (), cancelApply st when index s)) ∧
    (∀ cfg when index (st : State) (s : Scheduled) o,
      (st.agenda when).get? index = some (some s) →
      badPriv cfg o s.origin = false →
      do_cancel cfg (some o) when index st =
        (.ok (), cancelApply st when index s)) ∧
    (∀ (st : State) when index (s : Scheduled),
      (cancelApply st when index s).requests = unrequestCall st.requests s.call ∧
      (cancelApply st when index s).events = st.events ++ [.canceled when index] ∧
      (cancelApply st when index s).agenda when = (st.agenda when).set index none ∧
      (∀ w', w' ≠ when → (cancelApply st when index s).agenda w' = st.agenda w') ∧
      (∀ j, j ≠ index →
        ((cancelApply st when index s).agenda when).get? j = (st.agenda when).get? j) ∧
      (index < (st.agenda when).length →
        ((cancelApply st when index s).agenda when).get? index = some none) ∧
      (∀ id, s.maybe_id = some id → (cancelApply st when index s).lookup id = none) ∧
      (s.maybe_id = none → (cancelApply st when index s).lookup = st.lookup)) ∧
    (∀ cfg (id : List Nat) when index (st : State) (s : Scheduled) o,
      st.lookup id = some (when, index) →
      (st.agenda when).get? index = some (some s) →
      badPriv cfg o s.origin = false →
      do_cancel_named cfg (some o) id st =
        (.ok (), { st with
          agenda := upd st.agenda when ((st.agenda when).set index none),
          lookup := upd st.lookup id none,
          requests := unrequestCall st.requests s.call,
          events := st.events ++ [.canceled when index] })) ∧
    (∀ cfg (id : List Nat) when index (st : State) (s : Scheduled),
      st.lookup id = some (when, index) →
      (st.agenda when).get? index = some (some s) →
      do_cancel_named cfg none id st =
        (.ok (), { st with
          agenda := upd st.agenda when ((st.agenda when).set index none),
          lookup := upd st.lookup id none,
          events := st.events ++ [.canceled when index] })) := by
  refine ⟨?_, ?_, ?_, ?_, ?_⟩
  · intro cfg when index st s hget
    rw [List.get?_eq_getElem?] at hget
    simp [do_cancel, hget]
  · intro cfg when index st s o hget hpriv
    rw [List.get?_eq_getElem?] at hget
    simp [do_cancel, hget, hpriv]
  · intro st when index s
    refine ⟨?_, ?_, ?_, ?_, ?_, ?_, ?_, ?_⟩
    · cases hmid : s.maybe_id <;> simp [cancelApply, hmid]
    · cases hmid : s.maybe_id <;> simp [cancelApply, hmid]
    · cases hmid : s.maybe_id <;> simp [cancelApply, hmid, upd_same]
    · intro w' hw'
      cases hmid : s.maybe_id <;> simp [cancelApply, hmid, upd_ne, hw']
    · intro j hj
      cases hmid : s.maybe_id <;>
        simp [cancelApply, hmid, upd_same, List.getElem?_set_ne (Ne.symm hj)]
    · intro hlt
      cases hmid : s.maybe_id <;>
        simp [cancelApply, hmid, upd_same, List.getElem?_set_eq_of_lt _ hlt]
    · intro id hid
      simp [cancelApply, hid, upd_same]
    · intro hid
      simp [cancelApply, hid]
  · intro cfg id when index st s o hl hget hpriv
    rw [List.get?_eq_getElem?] at hget
    simp [do_cancel_named, hl, hget, hpriv]
  · intro cfg id when index st s hl hget
    rw [List.get?_eq_getElem?] at hget
    simp [do_cancel_named, hl, hget]

/-- Witness for C8: cancelling the named hash-payload task of `st8c` without
an authorization context (its requests stay untouched). -/
theorem C8_thm_w :
    do_cancel_named cfgTriv none [5] st8c =
      (.ok (), { st8c with
        agenda := upd st8c.agenda 2 ((st8c.agenda 2).set 0 none),
        lookup := upd st8c.lookup [5] none,
        events := st8c.events ++ [.canceled 2 0] }) :=
  C8_thm.2.2.2.2 cfgTriv [5] 2 0 st8c s8c (by decide) (by decide)

/-! ### C5 — failed API calls leave the stores unchanged (almost) -/

/-- C5 (amended): every Scheduling API call that returns an error leaves the
Agenda, the Name Index and the event log exactly as before, and cancel /
reschedule calls leave the whole state (including the resolver's reference
counts) unchanged; however a failing `do_schedule` / `do_schedule_named` may
have already incremented the payload resolver's reference count (the
"request" precedes the fallible encoding and capacity checks and is not
rolled back by the function). -/
theorem C5_thm :
    (∀ cfg now when mp prio origin call (st : State) r st',
      do_schedule cfg now when mp prio origin call st = (r, st') →
      ∀ e, r = .error e →
      st'.agenda = st.agenda ∧ st'.lookup = st.lookup ∧ st'.events = st.events ∧
      (st'.requests = st.requests ∨ st'.requests = requestCall st.requests call)) ∧
    (∀ cfg now id when mp prio origin call (st : State) r st',
      do_schedule_named cfg now id when mp prio origin call st = (r, st') →
      ∀ e, r = .error e →
      st'.agenda = st.agenda ∧ st'.lookup = st.lookup ∧ st'.events = st.events ∧
      (st'.requests = st.requests ∨ st'.requests = requestCall st.requests call)) ∧
    (∀ cfg origin when index (st : State) r st',
      do_cancel cfg origin when index st = (r, st') →
      ∀ e, r = .error e → st' = st) ∧
    (∀ cfg origin id (st : State) r st',
      do_cancel_named cfg origin id st = (r, st') →
      ∀ e, r = .error e → st' = st) ∧
    (∀ cfg now when index nt (st : State) r st',
      do_reschedule cfg now when index nt st = (r, st') →
      ∀ e, r = .error e → st' = st) ∧
    (∀ cfg now id nt (st : State) r st',
      do_reschedule_named cfg now id nt st = (r, st') →
      ∀ e, r = .error e → st' = st) := by
  refine ⟨?_, ?_, ?_, ?_, ?_, ?_⟩
  · intro cfg now when mp prio origin call st r st' hres e herr
    unfold do_schedule at hres
    split at hres
    · injection hres with h1 h2
      subst h1; subst h2
      exact ⟨rfl, rfl, rfl, Or.inl rfl⟩
    · split at hres
      · simp only [] at hres
        split at hres
        · injection hres with h1 h2
          subst h1
          simp at herr
        · injection hres with h1 h2
          subst h1; subst h2
          exact ⟨rfl, rfl, rfl, Or.inr rfl⟩
      · injection hres with h1 h2
        subst h1; subst h2
        exact ⟨rfl, rfl, rfl, Or.inr rfl⟩
  · intro cfg now id when mp prio origin call st r st' hres e herr
    unfold do_schedule_named at hres
    split at hres
    · injection hres with h1 h2
      subst h1; subst h2
      exact ⟨rfl, rfl, rfl, Or.inl rfl⟩
    · split at hres
      · injection hres with h1 h2
        subst h1; subst h2
        exact ⟨rfl, rfl, rfl, Or.inl rfl⟩
      · split at hres
        · simp only [] at hres
          split at hres
          · injection hres with h1 h2
            subst h1
            simp at herr
          · injection hres with h1 h2
            subst h1; subst h2
            exact ⟨rfl, rfl, rfl, Or.inr rfl⟩
        · injection hres with h1 h2
          subst h1; subst h2
          exact ⟨rfl, rfl, rfl, Or.inr rfl⟩
  · intro cfg origin when index st r st' hres e herr
    unfold do_cancel at hres
    split at hres
    · injection hres with h1 h2; subst h2; rfl
    · injection hres with h1 h2; subst h2; rfl
    · split at hres
      · split at hres
        · injection hres with h1 h2; subst h2; rfl
        · injection hres with h1 h2
          subst h1
          simp at herr
      · injection hres with h1 h2
        subst h1
        simp at herr
  · intro cfg origin id st r st' hres e herr
    unfold do_cancel_named at hres
    split at hres
    · injection hres with h1 h2; subst h2; rfl
    · split at hres
      · injection hres with h1 h2
        subst h1
        simp at herr
      · split at hres
        · split at hres
          · injection hres with h1 h2; subst h2; rfl
          · injection hres with h1 h2
            subst h1
            simp at herr
        · injection hres with h1 h2
          subst h1
          simp at herr
  · intro cfg now when index nt st r st' hres e herr
    unfold do_reschedule at hres
    split at hres
    · injection hres with h1 h2; subst h2; rfl
    · split at hres
      · injection hres with h1 h2; subst h2; rfl
      · split at hres
        · injection hres with h1 h2; subst h2; rfl
        · injection hres with h1 h2; subst h2; rfl
        · simp only [] at hres
          split at hres
          · injection hres with h1 h2; subst h2; rfl
          · injection hres with h1 h2
            subst h1
            simp at herr
  · intro cfg now id nt st r st' hres e herr
    unfold do_reschedule_named at hres
    split at hres
    · injection hres with h1 h2; subst h2; rfl
    · split at hres
      · injection hres with h1 h2; subst h2; rfl
      · split at hres
        · injection hres with h1 h2; subst h2; rfl
        · split at hres
          · injection hres with h1 h2; subst h2; rfl
          · injection hres with h1 h2; subst h2; rfl
          · simp only [] at hres
            split at hres
            · injection hres with h1 h2; subst h2; rfl
            · injection hres with h1 h2
              subst h1
              simp at herr

/-- Witness for C5: the failing schedule of `C5_cex`'s scenario, applied
through the theorem. -/
theorem C5_thm_w :
    (do_schedule cfg5c 1 (.At 5) none 100 orgU (.hash 7) emptyState).2.agenda =
      emptyState.agenda ∧
    (do_schedule cfg5c 1 (.At 5) none 100 orgU (.hash 7) emptyState).2.lookup =
      emptyState.lookup ∧
    (do_schedule cfg5c 1 (.At 5) none 100 orgU (.hash 7) emptyState).2.events =
      emptyState.events ∧
    ((do_schedule cfg5c 1 (.At 5) none 100 orgU (.hash 7) emptyState).2.requests =
        emptyState.requests ∨
      (do_schedule cfg5c 1 (.At 5) none 100 orgU (.hash 7) emptyState).2.requests =
        requestCall emptyState.requests (.hash 7)) :=
  C5_thm.1 cfg5c 1 (.At 5) none 100 orgU (.hash 7) emptyState
    (do_schedule cfg5c 1 (.At 5) none 100 orgU (.hash 7) emptyState).1
    (do_schedule cfg5c 1 (.At 5) none 100 orgU (.hash 7) emptyState).2
    rfl .tooManyAgendas rfl

/-! ### C2 — name-index / agenda consistency -/

/-- The name-index consistency invariant: every `Lookup` entry points at a
live task carrying that name, and every live named task has its (unique)
`Lookup` entry pointing at its current address. -/
def Inv (st : State) : Prop :=
  (∀ id w i, st.lookup id = some (w, i) →
    ∃ s, liveAt st w i = some s ∧ s.maybe_id = some id) ∧
  (∀ w i s id, liveAt st w i = some s → s.maybe_id = some id →
    st.lookup id = some (w, i))

/-- Loop invariant of the tick loop: like `Inv`, except that the names of the
still-pending (drained but unprocessed) tasks may have stale `Lookup`
entries; pending names are pairwise distinct and not carried by any live
task. -/
def LoopInv (st : State) (ids : List (List Nat)) : Prop :=
  (∀ id w i, st.lookup id = some (w, i) → id ∉ ids →
    ∃ s, liveAt st w i = some s ∧ s.maybe_id = some id) ∧
  (∀ w i s id, liveAt st w i = some s → s.maybe_id = some id →
    st.lookup id = some (w, i) ∧ id ∉ ids) ∧
  ids.Nodup

theorem loopInv_nil_iff (st : State) : LoopInv st [] ↔ Inv st := by
  constructor
  · intro ⟨h1, h2, _⟩
    exact ⟨fun id w i hl => h1 id w i hl (List.not_mem_nil id),
      fun w i s id hs hid => (h2 w i s id hs hid).1⟩
  · intro ⟨h1, h2⟩
    exact ⟨fun id w i hl _ => h1 id w i hl,
      fun w i s id hs hid => ⟨h2 w i s id hs hid, List.not_mem_nil id⟩,
      List.nodup_nil⟩

theorem liveAt_some_iff {st : State} {w i : Nat} {s : Scheduled} :
    liveAt st w i = some s ↔ (st.agenda w).get? i = some (some s) := by
  unfold liveAt
  cases h : (st.agenda w).get? i with
  | none => simp
  | some os => cases os <;> simp

theorem liveAt_agenda_congr {st st' : State} (h : st'.agenda = st.agenda)
    (w i : Nat) : liveAt st' w i = liveAt st w i := by
  unfold liveAt
  rw [h]

theorem getq_some_lt {α : Type} :
    ∀ (l : List α) (i : Nat) (a : α), l.get? i = some a → i < l.length := by
  intro l
  induction l with
  | nil => intro i a h; simp at h
  | cons x xs ih =>
    intro i a h
    cases i with
    | zero => simp
    | succ j =>
      simp only [List.get?_cons_succ] at h
      have := ih j a h
      simp
      omega

theorem getq_append_lt {α : Type} (l : List α) (x : α) (i : Nat)
    (h : i < l.length) : (l ++ [x]).get? i = l.get? i := by
  rw [List.get?_eq_getElem?, List.get?_eq_getElem?, List.getElem?_append]
  rw [if_pos h]

theorem getq_append_cases {α : Type} :
    ∀ (l : List α) (x : α) (i : Nat) (y : α),
      (l ++ [x]).get? i = some y →
      l.get? i = some y ∨ (i = l.length ∧ y = x) := by
  intro l
  induction l with
  | nil =>
    intro x i y h
    cases i with
    | zero => simp at h; simp [h]
    | succ j => simp at h
  | cons z zs ih =>
    intro x i y h
    cases i with
    | zero => simp_all
    | succ j =>
      simp only [List.cons_append, List.get?_cons_succ] at h ⊢
      rcases ih x j y h with h' | ⟨h1, h2⟩
      · exact Or.inl h'
      · exact Or.inr ⟨by simp [h1], h2⟩

theorem tryAppendA_some {cfg : Config} {ag : Nat → List (Option Scheduled)}
    {w : Nat} {x : Option Scheduled} {ag2 : Nat → List (Option Scheduled)}
    (h : tryAppendA cfg ag w x = some ag2) :
    ag2 = upd ag w (ag w ++ [x]) ∧ (ag w).length < cfg.maxScheduledPerBlock := by
  unfold tryAppendA at h
  split at h
  · exact ⟨(Option.some.inj h).symm, by assumption⟩
  · cases h

/-- Live tasks survive appending a new slot entry. -/
theorem liveAt_append_old {st : State} {w : Nat} {x : Option Scheduled}
    {st' : State} (hag : st'.agenda = upd st.agenda w (st.agenda w ++ [x]))
    {w' i' : Nat} {s' : Scheduled} (h : liveAt st w' i' = some s') :
    liveAt st' w' i' = some s' := by
  rw [liveAt_some_iff] at h ⊢
  rw [hag]
  by_cases hw : w' = w
  · subst hw
    rw [upd_same, getq_append_lt _ _ _ (getq_some_lt _ _ _ h)]
    exact h
  · rw [upd_ne _ _ _ _ hw]
    exact h

/-- A live task after an append is an old live task or the appended one. -/
theorem liveAt_append_cases {st : State} {w : Nat} {x : Option Scheduled}
    {st' : State} (hag : st'.agenda = upd st.agenda w (st.agenda w ++ [x]))
    {w' i' : Nat} {s' : Scheduled} (h : liveAt st' w' i' = some s') :
    liveAt st w' i' = some s' ∨
      (w' = w ∧ i' = (st.agenda w).length ∧ x = some s') := by
  rw [liveAt_some_iff] at h
  rw [hag] at h
  by_cases hw : w' = w
  · subst hw
    rw [upd_same] at h
    rcases getq_append_cases _ _ _ _ h with h' | ⟨h1, h2⟩
    · exact Or.inl (liveAt_some_iff.mpr h')
    · exact Or.inr ⟨rfl, h1, h2.symm⟩
  · rw [upd_ne _ _ _ _ hw] at h
    exact Or.inl (liveAt_some_iff.mpr h)

/-- The appended entry is live at the fresh index (when it is a task). -/
theorem liveAt_append_new {st : State} {w : Nat} {s : Scheduled}
    {st' : State} (hag : st'.agenda = upd st.agenda w (st.agenda w ++ [some s])) :
    liveAt st' w (st.agenda w).length = some s := by
  rw [liveAt_some_iff, hag, upd_same]
  rw [List.get?_eq_getElem?]
  exact List.getElem?_concat_length _ _

/-- Vacating one slot preserves all the other live entries (both ways). -/
theorem liveAt_set_none_other {st : State} {w i : Nat} {st' : State}
    (hag : st'.agenda = upd st.agenda w ((st.agenda w).set i none))
    {w' i' : Nat} (h : w' ≠ w ∨ i' ≠ i) :
    liveAt st' w' i' = liveAt st w' i' := by
  unfold liveAt
  rw [hag]
  by_cases hw : w' = w
  · subst hw
    rw [upd_same]
    have hi : i' ≠ i := h.resolve_left (by simp)
    rw [List.get?_eq_getElem?, List.get?_eq_getElem?,
      List.getElem?_set_ne (Ne.symm hi)]
  · rw [upd_ne _ _ _ _ hw]

/-- The vacated address holds no live task. -/
theorem liveAt_set_none_at {st : State} {w i : Nat} {st' : State}
    (hag : st'.agenda = upd st.agenda w ((st.agenda w).set i none)) :
    liveAt st' w i = none := by
  unfold liveAt
  rw [hag, upd_same]
  rw [List.get?_eq_getElem?]
  cases hlt : Nat.decLt i (st.agenda w).length with
  | isTrue hl =>
    rw [List.getElem?_set_eq_of_lt _ hl]
  | isFalse hl =>
    have : (st.agenda w).length ≤ i := Nat.le_of_not_lt hl
    rw [List.getElem?_eq_none]
    simp
    omega

theorem inv_do_schedule {cfg : Config} {now : Nat} {when : DispatchTime}
    {mp : Option (Nat × Nat)} {prio : Nat} {origin : Origin} {call : MHCall}
    {st : State} (hinv : Inv st) {r : Except SchedError (Nat × Nat)} {st' : State}
    (h : do_schedule cfg now when mp prio origin call st = (r, st'))
    {a : Nat × Nat} (hr : r = .ok a) : Inv st' := by
  obtain ⟨h1, h2⟩ := hinv
  unfold do_schedule at h
  split at h
  · injection h with ha hb
    subst ha; simp at hr
  · rename_i w hrt
    split at h
    · simp only [] at h
      split at h
      · rename_i ag hta
        injection h with ha hb
        obtain ⟨hag, _⟩ := tryAppendA_some hta
        subst hb
        have hA : ({ st with
            requests := requestCall st.requests call, agenda := ag,
            events := st.events ++ [.scheduled w ((ag w).length - 1)] } : State).agenda =
            upd st.agenda w (st.agenda w ++
              [some { maybe_id := none, priority := prio, call := call,
                      maybe_periodic := sanitizePeriodic mp, origin := origin }]) := hag
        constructor
        · intro id w' i' hl
          obtain ⟨s0, hs0, hid0⟩ := h1 id w' i' hl
          exact ⟨s0, liveAt_append_old hA hs0, hid0⟩
        · intro w' i' s0 id hs hid
          rcases liveAt_append_cases hA hs with hold | ⟨hw, hi, hx⟩
          · exact h2 w' i' s0 id hold hid
          · injection hx with hx
            rw [← hx] at hid
            simp at hid
      · injection h with ha hb
        subst ha; simp at hr
    · injection h with ha hb
      subst ha; simp at hr

theorem inv_do_schedule_named {cfg : Config} {now : Nat} {id : List Nat}
    {when : DispatchTime} {mp : Option (Nat × Nat)} {prio : Nat}
    {origin : Origin} {call : MHCall} {st : State} (hinv : Inv st)
    {r : Except SchedError (Nat × Nat)} {st' : State}
    (h : do_schedule_named cfg now id when mp prio origin call st = (r, st'))
    {a : Nat × Nat} (hr : r = .ok a) : Inv st' := by
  obtain ⟨h1, h2⟩ := hinv
  unfold do_schedule_named at h
  split at h
  · injection h with ha hb
    subst ha; simp at hr
  · rename_i hcont
    have hnone : st.lookup id = none := by
      cases hsl : st.lookup id with
      | none => rfl
      | some p => rw [hsl] at hcont; simp at hcont
    split at h
    · injection h with ha hb
      subst ha; simp at hr
    · rename_i w hrt
      split at h
      · simp only [] at h
        split at h
        · rename_i ag hta
          injection h with ha hb
          obtain ⟨hag, _⟩ := tryAppendA_some hta
          subst hb
          have hA : ({ st with
              requests := requestCall st.requests call, agenda := ag,
              lookup := upd st.lookup id (some (w, (ag w).length - 1)),
              events := st.events ++ [.scheduled w ((ag w).length - 1)] } : State).agenda =
              upd st.agenda w (st.agenda w ++
                [some { maybe_id := some id, priority := prio, call := call,
                        maybe_periodic := sanitizePeriodic mp, origin := origin }]) := hag
          have hlen : (ag w).length - 1 = (st.agenda w).length := by
            have : ag w = st.agenda w ++
                [some { maybe_id := some id, priority := prio, call := call,
                        maybe_periodic := sanitizePeriodic mp, origin := origin }] := by
              rw [hag, upd_same]
            rw [this]
            simp
          constructor
          · intro id' w' i' hl
            by_cases hid' : id' = id
            · subst hid'
              rw [show (({ st with
                  requests := requestCall st.requests call, agenda := ag,
                  lookup := upd st.lookup id' (some (w, (ag w).length - 1)),
                  events := st.events ++ [.scheduled w ((ag w).length - 1)] } : State).lookup id')
                  = some (w, (ag w).length - 1) from upd_same _ _ _] at hl
              injection hl with hl
              cases hl
              rw [hlen]
              exact ⟨_, liveAt_append_new hA, rfl⟩
            · rw [show (({ st with
                  requests := requestCall st.requests call, agenda := ag,
                  lookup := upd st.lookup id (some (w, (ag w).length - 1)),
                  events := st.events ++ [.scheduled w ((ag w).length - 1)] } : State).lookup id')
                  = st.lookup id' from upd_ne _ _ _ _ hid'] at hl
              obtain ⟨s0, hs0, hid0⟩ := h1 id' w' i' hl
              exact ⟨s0, liveAt_append_old hA hs0, hid0⟩
          · intro w' i' s0 id' hs hid'
            rcases liveAt_append_cases hA hs with hold | ⟨hw, hi, hx⟩
            · have hid'' : id' ≠ id := by
                intro hcontra
                subst hcontra
                have := h2 w' i' s0 id' hold hid'
                rw [hnone] at this
                cases this
              have := h2 w' i' s0 id' hold hid'
              rw [show (({ st with
                  requests := requestCall st.requests call, agenda := ag,
                  lookup := upd st.lookup id (some (w, (ag w).length - 1)),
                  events := st.events ++ [.scheduled w ((ag w).length - 1)] } : State).lookup id')
                  = st.lookup id' from upd_ne _ _ _ _ hid'']
              exact this
            · injection hx with hx
              subst hw
              have hs0 : s0.maybe_id = some id := by rw [← hx]
              rw [hs0] at hid'
              injection hid' with hid'
              subst hid'
              rw [hi, ← hlen]
              exact upd_same _ _ _
        · injection h with ha hb
          subst ha; simp at hr
      · injection h with ha hb
        subst ha; simp at hr

theorem inv_congr {st st' : State} (hag : st'.agenda = st.agenda)
    (hlk : st'.lookup = st.lookup) (h : Inv st) : Inv st' := by
  obtain ⟨h1, h2⟩ := h
  constructor
  · intro id w i hl
    rw [hlk] at hl
    obtain ⟨s, hs, hid⟩ := h1 id w i hl
    exact ⟨s, by rw [liveAt_agenda_congr hag]; exact hs, hid⟩
  · intro w i s id hs hid
    rw [liveAt_agenda_congr hag] at hs
    rw [hlk]
    exact h2 w i s id hs hid

theorem inv_cancelApply {st : State} {when index : Nat} {s : Scheduled}
    (hinv : Inv st) (hlive : liveAt st when index = some s) :
    Inv (cancelApply st when index s) := by
  obtain ⟨h1, h2⟩ := hinv
  have hagEq : (cancelApply st when index s).agenda =
      upd st.agenda when ((st.agenda when).set index none) := by
    cases hmid : s.maybe_id <;> simp [cancelApply, hmid]
  have hlk : ∀ id', (cancelApply st when index s).lookup id' =
      (if s.maybe_id = some id' then none else st.lookup id') := by
    intro id'
    cases hmid : s.maybe_id with
    | none => simp [cancelApply, hmid]
    | some id0 =>
      by_cases hid : id0 = id'
      · subst hid
        simp [cancelApply, hmid, upd_same]
      · simp only [cancelApply, hmid]
        rw [if_neg (by simp [hid])]
        exact upd_ne _ _ _ _ (fun hh => hid hh.symm)
  constructor
  · intro id' w' i' hl
    rw [hlk id'] at hl
    split at hl
    · cases hl
    · rename_i hnid
      obtain ⟨s1, hs1, hid1⟩ := h1 id' w' i' hl
      have hne : w' ≠ when ∨ i' ≠ index := by
        by_contra hcon
        push_neg at hcon
        obtain ⟨hw, hi⟩ := hcon
        subst hw; subst hi
        rw [hlive] at hs1
        injection hs1 with hs1
        subst hs1
        exact hnid hid1
      rw [liveAt_set_none_other hagEq hne]
      exact ⟨s1, hs1, hid1⟩
  · intro w' i' s1 id' hs hid'
    have hne : w' ≠ when ∨ i' ≠ index := by
      by_contra hcon
      push_neg at hcon
      obtain ⟨hw, hi⟩ := hcon
      subst hw; subst hi
      rw [liveAt_set_none_at hagEq] at hs
      cases hs
    rw [liveAt_set_none_other hagEq hne] at hs
    have hlk0 := h2 w' i' s1 id' hs hid'
    rw [hlk id']
    split
    · rename_i hmid
      have h2s := h2 when index s id' hlive hmid
      rw [hlk0] at h2s
      injection h2s with h2s
      injection h2s with hw hi
      rcases hne with hne | hne
      · exact absurd hw hne
      · exact absurd hi hne
    · exact hlk0

theorem inv_do_cancel {cfg : Config} {origin : Option Origin} {when index : Nat}
    {st : State} (hinv : Inv st) {r : Except SchedError Unit} {st' : State}
    (h : do_cancel cfg origin when index st = (r, st'))
    (hr : r = .ok ()) : Inv st' := by
  unfold do_cancel at h
  split at h
  · injection h with ha hb; subst ha; simp at hr
  · injection h with ha hb; subst ha; simp at hr
  · rename_i s hget
    split at h
    · split at h
      · injection h with ha hb; subst ha; simp at hr
      · injection h with ha hb
        subst hb
        exact inv_cancelApply hinv (liveAt_some_iff.mpr hget)
    · injection h with ha hb
      subst hb
      exact inv_cancelApply hinv (liveAt_some_iff.mpr hget)

theorem inv_do_cancel_named {cfg : Config} {origin : Option Origin}
    {id : List Nat} {st : State} (hinv : Inv st) {r : Except SchedError Unit}
    {st' : State} (h : do_cancel_named cfg origin id st = (r, st'))
    (hr : r = .ok ()) : Inv st' := by
  have hinv' := hinv
  obtain ⟨h1, h2⟩ := hinv'
  unfold do_cancel_named at h
  split at h
  · injection h with ha hb; subst ha; simp at hr
  · rename_i when index hl
    obtain ⟨s, hs, hsid⟩ := h1 id when index hl
    rw [liveAt_some_iff] at hs
    split at h
    · rename_i hget
      rw [hs] at hget
      cases hget
    · rename_i os hget
      rw [hs] at hget
      injection hget with hget
      subst hget
      split at h
      · rename_i o hoo
        split at h
        · injection h with ha hb; subst ha; simp at hr
        · injection h with ha hb
          subst hb
          refine inv_congr ?_ ?_
            (inv_cancelApply hinv (liveAt_some_iff.mpr hs))
          · cases hmid : s.maybe_id <;> simp [cancelApply, hmid]
          · have hclk : (cancelApply st when index s).lookup =
                upd st.lookup id none := by
              simp [cancelApply, hsid]
            rw [hclk]
      · injection h with ha hb
        subst hb
        refine inv_congr ?_ ?_
          (inv_cancelApply hinv (liveAt_some_iff.mpr hs))
        · cases hmid : s.maybe_id <;> simp [cancelApply, hmid]
        · have hclk : (cancelApply st when index s).lookup =
              upd st.lookup id none := by
            simp [cancelApply, hsid]
          rw [hclk]

/-- Vacate one agenda address (the agenda part of cancel/reschedule). -/
def setNoneAt (st : State) (w i : Nat) : State :=
  { st with agenda := upd st.agenda w ((st.agenda w).set i none) }

theorem inv_do_reschedule {cfg : Config} {now when index : Nat}
    {nt : DispatchTime} {st : State} (hinv : Inv st)
    (hunnamed : ∀ task, liveAt st when index = some task → task.maybe_id = none)
    {r : Except SchedError (Nat × Nat)} {st' : State}
    (h : do_reschedule cfg now when index nt st = (r, st'))
    {a : Nat × Nat} (hr : r = .ok a) : Inv st' := by
  obtain ⟨h1, h2⟩ := hinv
  unfold do_reschedule at h
  split at h
  · injection h with ha hb; subst ha; simp at hr
  · rename_i w hrt
    split at h
    · injection h with ha hb; subst ha; simp at hr
    · rename_i hnw
      split at h
      · injection h with ha hb; subst ha; simp at hr
      · injection h with ha hb; subst ha; simp at hr
      · rename_i task hget
        simp only [] at h
        split at h
        · injection h with ha hb; subst ha; simp at hr
        · rename_i ag2 hta
          injection h with ha hb
          have htid : task.maybe_id = none :=
            hunnamed task (liveAt_some_iff.mpr hget)
          obtain ⟨hag2, _⟩ := tryAppendA_some hta
          have hbag : st'.agenda = ag2 := by rw [← hb]
          have hblk : st'.lookup = st.lookup := by rw [← hb]
          have hagMid : (setNoneAt st when index).agenda =
              upd st.agenda when ((st.agenda when).set index none) := rfl
          have hA2 : st'.agenda =
              upd (setNoneAt st when index).agenda w
                ((setNoneAt st when index).agenda w ++ [some task]) := by
            rw [hbag]
            exact hag2
          constructor
          · intro id' w' i' hl
            rw [hblk] at hl
            obtain ⟨s1, hs1, hid1⟩ := h1 id' w' i' hl
            have hne : w' ≠ when ∨ i' ≠ index := by
              by_contra hcon
              push_neg at hcon
              obtain ⟨hw, hi⟩ := hcon
              subst hw; subst hi
              rw [liveAt_some_iff, hget] at hs1
              injection hs1 with hs1
              injection hs1 with hs1
              rw [← hs1] at hid1
              rw [htid] at hid1
              cases hid1
            have hmidl : liveAt (setNoneAt st when index) w' i' = some s1 := by
              rw [liveAt_set_none_other hagMid hne]
              exact hs1
            exact ⟨s1, liveAt_append_old hA2 hmidl, hid1⟩
          · intro w' i' s1 id' hs hid'
            rcases liveAt_append_cases hA2 hs with hold | ⟨hw, hi, hx⟩
            · have hne : w' ≠ when ∨ i' ≠ index := by
                by_contra hcon
                push_neg at hcon
                obtain ⟨hw, hi⟩ := hcon
                subst hw; subst hi
                rw [liveAt_set_none_at hagMid] at hold
                cases hold
              rw [liveAt_set_none_other hagMid hne] at hold
              rw [hblk]
              exact h2 w' i' s1 id' hold hid'
            · injection hx with hx
              rw [← hx] at hid'
              rw [htid] at hid'
              cases hid'

theorem inv_do_reschedule_named {cfg : Config} {now : Nat} {id : List Nat}
    {nt : DispatchTime} {st : State} (hinv : Inv st)
    {r : Except SchedError (Nat × Nat)} {st' : State}
    (h : do_reschedule_named cfg now id nt st = (r, st'))
    {a : Nat × Nat} (hr : r = .ok a) : Inv st' := by
  obtain ⟨h1, h2⟩ := hinv
  unfold do_reschedule_named at h
  split at h
  · injection h with ha hb; subst ha; simp at hr
  · rename_i w hrt
    split at h
    · injection h with ha hb; subst ha; simp at hr
    · rename_i when index hl
      obtain ⟨task, htask, htid⟩ := h1 id when index hl
      rw [liveAt_some_iff] at htask
      split at h
      · injection h with ha hb; subst ha; simp at hr
      · rename_i hnw
        split at h
        · rename_i hget
          rw [htask] at hget
          cases hget
        · rename_i hget
          rw [htask] at hget
          injection hget with hget
          cases hget
        · rename_i task2 hget
          rw [htask] at hget
          injection hget with hget
          injection hget with hget
          subst hget
          simp only [] at h
          split at h
          · injection h with ha hb; subst ha; simp at hr
          · rename_i ag2 hta
            injection h with ha hb
            obtain ⟨hag2, _⟩ := tryAppendA_some hta
            have hbag : st'.agenda = ag2 := by rw [← hb]
            have hblk : st'.lookup =
                upd st.lookup id (some (w, (ag2 w).length - 1)) := by
              rw [← hb]
            have hagMid : (setNoneAt st when index).agenda =
                upd st.agenda when ((st.agenda when).set index none) := rfl
            have hA2 : st'.agenda =
                upd (setNoneAt st when index).agenda w
                  ((setNoneAt st when index).agenda w ++ [some task]) := by
              rw [hbag]
              exact hag2
            have hNewIdx : (ag2 w).length - 1 =
                ((setNoneAt st when index).agenda w).length := by
              have hx : ag2 w = (setNoneAt st when index).agenda w ++ [some task] := by
                rw [hag2]
                exact upd_same _ _ _
              rw [hx]
              simp
            constructor
            · intro id' w' i' hl'
              rw [hblk] at hl'
              by_cases hid' : id' = id
              · subst hid'
                rw [upd_same] at hl'
                injection hl' with hl'
                cases hl'
                rw [hNewIdx]
                exact ⟨task, liveAt_append_new hA2, htid⟩
              · rw [upd_ne _ _ _ _ hid'] at hl'
                obtain ⟨s1, hs1, hid1⟩ := h1 id' w' i' hl'
                have hne : w' ≠ when ∨ i' ≠ index := by
                  by_contra hcon
                  push_neg at hcon
                  obtain ⟨hw, hi⟩ := hcon
                  subst hw; subst hi
                  rw [liveAt_some_iff, htask] at hs1
                  injection hs1 with hs1
                  injection hs1 with hs1
                  rw [← hs1] at hid1
                  rw [htid] at hid1
                  injection hid1 with hid1
                  exact hid' hid1.symm
                have hmidl : liveAt (setNoneAt st when index) w' i' = some s1 := by
                  rw [liveAt_set_none_other hagMid hne]
                  exact hs1
                exact ⟨s1, liveAt_append_old hA2 hmidl, hid1⟩
            · intro w' i' s1 id' hs hid'
              rcases liveAt_append_cases hA2 hs with hold | ⟨hw, hi, hx⟩
              · have hne : w' ≠ when ∨ i' ≠ index := by
                  by_contra hcon
                  push_neg at hcon
                  obtain ⟨hw, hi⟩ := hcon
                  subst hw; subst hi
                  rw [liveAt_set_none_at hagMid] at hold
                  cases hold
                rw [liveAt_set_none_other hagMid hne] at hold
                have hlk0 := h2 w' i' s1 id' hold hid'
                have hid'' : id' ≠ id := by
                  intro hcontra
                  subst hcontra
                  rw [hl] at hlk0
                  injection hlk0 with hlk0
                  injection hlk0 with hwx hix
                  rcases hne with hne | hne
                  · exact hne hwx.symm
                  · exact hne hix.symm
                rw [hblk, upd_ne _ _ _ _ hid'']
                exact hlk0
              · injection hx with hx
                rw [← hx] at hid'
                rw [htid] at hid'
                injection hid' with hid'
                subst hid'
                subst hw
                rw [hblk, hi, ← hNewIdx]
                exact upd_same _ _ _

theorem loopInv_congr {st st' : State} {ids : List (List Nat)}
    (hag : st'.agenda = st.agenda) (hlk : st'.lookup = st.lookup)
    (h : LoopInv st ids) : LoopInv st' ids := by
  obtain ⟨h1, h2, h3⟩ := h
  refine ⟨?_, ?_, h3⟩
  · intro id w i hl hnm
    rw [hlk] at hl
    obtain ⟨s, hs, hid⟩ := h1 id w i hl hnm
    exact ⟨s, by rw [liveAt_agenda_congr hag]; exact hs, hid⟩
  · intro w i s id hs hid
    rw [liveAt_agenda_congr hag] at hs
    rw [hlk]
    exact h2 w i s id hs hid

/-- Re-inserting an unnamed task preserves the loop invariant. -/
theorem loopInv_reinsert_unnamed {cfg : Config} {st : State} {w : Nat}
    {s : Scheduled} {st2 : State} {ids : List (List Nat)}
    (h : reinsert cfg st w s = .ok st2)
    (hLI : LoopInv st ids) (hmid : s.maybe_id = none) : LoopInv st2 ids := by
  obtain ⟨h1, h2, h3⟩ := hLI
  unfold reinsert appendTask at h
  rw [hmid] at h
  cases hta : tryAppendA cfg (insertLookupFor st none w).agenda w (some s) with
  | none => rw [hta] at h; cases h
  | some ag =>
    rw [hta] at h
    injection h with h
    obtain ⟨hag, _⟩ := tryAppendA_some hta
    have hbag : st2.agenda = upd st.agenda w (st.agenda w ++ [some s]) := by
      rw [← h]
      exact hag
    have hblk : st2.lookup = st.lookup := by
      rw [← h]
      rfl
    refine ⟨?_, ?_, h3⟩
    · intro id' w' i' hl hnm
      rw [hblk] at hl
      obtain ⟨s1, hs1, hid1⟩ := h1 id' w' i' hl hnm
      exact ⟨s1, liveAt_append_old hbag hs1, hid1⟩
    · intro w' i' s1 id' hs hid'
      rw [hblk]
      rcases liveAt_append_cases hbag hs with hold | ⟨hw, hi, hx⟩
      · exact h2 w' i' s1 id' hold hid'
      · injection hx with hx
        rw [← hx] at hid'
        rw [hmid] at hid'
        cases hid'

/-- Re-inserting a named task whose name is fresh (no live holder, not
pending, not in the lookup obligations) restores the loop invariant with the
lookup entry pointing at the appended address. -/
theorem loopInv_reinsert_named {cfg : Config} {st : State} {w : Nat}
    {s : Scheduled} {st2 : State} {id : List Nat} {ids : List (List Nat)}
    (h : reinsert cfg st w s = .ok st2)
    (hmid : s.maybe_id = some id)
    (ha : ∀ id' w' i', st.lookup id' = some (w', i') → id' ∉ ids →
      ∃ s', liveAt st w' i' = some s' ∧ s'.maybe_id = some id')
    (hb : ∀ w' i' s' id', liveAt st w' i' = some s' → s'.maybe_id = some id' →
      st.lookup id' = some (w', i') ∧ id' ∉ ids ∧ id' ≠ id)
    (h3 : ids.Nodup) (hfresh : id ∉ ids) : LoopInv st2 ids := by
  unfold reinsert appendTask at h
  rw [hmid] at h
  cases hta : tryAppendA cfg (insertLookupFor st (some id) w).agenda w (some s) with
  | none => rw [hta] at h; cases h
  | some ag =>
    rw [hta] at h
    injection h with h
    obtain ⟨hag, _⟩ := tryAppendA_some hta
    have hbag : st2.agenda = upd st.agenda w (st.agenda w ++ [some s]) := by
      rw [← h]
      exact hag
    have hblk : st2.lookup = upd st.lookup id (some (w, (st.agenda w).length)) := by
      rw [← h]
      rfl
    refine ⟨?_, ?_, h3⟩
    · intro id' w' i' hl hnm
      rw [hblk] at hl
      by_cases hid' : id' = id
      · subst hid'
        rw [upd_same] at hl
        injection hl with hl
        cases hl
        exact ⟨s, liveAt_append_new hbag, hmid⟩
      · rw [upd_ne _ _ _ _ hid'] at hl
        obtain ⟨s1, hs1, hid1⟩ := ha id' w' i' hl hnm
        exact ⟨s1, liveAt_append_old hbag hs1, hid1⟩
    · intro w' i' s1 id' hs hid'
      rw [hblk]
      rcases liveAt_append_cases hbag hs with hold | ⟨hw, hi, hx⟩
      · obtain ⟨hlk1, hnm1, hne1⟩ := hb w' i' s1 id' hold hid'
        rw [upd_ne _ _ _ _ hne1]
        exact ⟨hlk1, hnm1⟩
      · injection hx with hx
        rw [← hx] at hid'
        rw [hmid] at hid'
        injection hid' with hid'
        subst hid'
        subst hw
        rw [hi, upd_same]
        exact ⟨rfl, hfresh⟩

theorem resolvedCall_unresolved {cfg : Config} {mc : MHCall}
    (h : asValue (resolvedCall cfg mc).1 = none) :
    (resolvedCall cfg mc).2 = none := by
  cases mc with
  | value c => simp [resolvedCall, asValue] at h
  | hash hh =>
    cases hp : cfg.preimages hh with
    | some c => simp [resolvedCall, hp, asValue] at h
    | none => simp [resolvedCall, hp]

/-- One iteration of the tick loop preserves the loop invariant, consuming
the processed task's pending name (if any). -/
theorem loopInv_processTask {cfg : Config} {now next order index : Nat}
    {s0 : Scheduled} {total : Nat} {st : State} {ids : List (List Nat)}
    (hLI : LoopInv st (match s0.maybe_id with
      | some id => id :: ids
      | none => ids))
    {w2 : Nat} {st2 : State}
    (h : processTask cfg now next order index s0 total st = .ok (w2, st2)) :
    LoopInv st2 ids := by
  cases hmid : s0.maybe_id with
  | none =>
    rw [hmid] at hLI
    simp only [processTask, hmid, removeNameStep] at h
    split at h
    · rename_i henc
      cases hva : asValue (resolvedCall cfg s0.call).1 with
      | none =>
        have hrc2 := resolvedCall_unresolved hva
        rw [hva, hrc2] at h
        simp only [] at h
        cases hnp : cfg.noPreimagePostponement with
        | some delay =>
          rw [hnp] at h
          simp only [] at h
          split at h
          · rename_i stR hre
            injection h with h
            injection h with ht hs
            subst hs
            exact loopInv_reinsert_unnamed hre hLI rfl
          · cases h
        | none =>
          rw [hnp] at h
          simp only [] at h
          injection h with h
          injection h with ht hs
          subst hs
          exact hLI
      | some c =>
        rw [hva] at h
        simp only [] at h
        set sgw := (if s0.origin.signed = true then cfg.dbWeight else 0) with hsgw
        cases hrc2 : (resolvedCall cfg s0.call).2 with
        | none =>
          rw [hrc2] at h
          simp only [] at h
          split at h
          · rename_i hd
            split at h
            · rename_i stR hre
              injection h with h
              injection h with ht hs
              subst hs
              exact loopInv_reinsert_unnamed hre hLI rfl
            · cases h
          · rename_i hd
            split at h
            · rename_i pc hmp
              split at h
              · rename_i stR hre
                injection h with h
                injection h with ht hs
                subst hs
                exact loopInv_reinsert_unnamed hre (loopInv_congr rfl rfl hLI) rfl
              · cases h
            · rename_i hmp
              injection h with h
              injection h with ht hs
              subst hs
              exact loopInv_congr rfl rfl hLI
        | some hh =>
          rw [hrc2] at h
          simp only [] at h
          split at h
          · rename_i hd
            split at h
            · rename_i stR hre
              injection h with h
              injection h with ht hs
              subst hs
              exact loopInv_reinsert_unnamed hre (loopInv_congr rfl rfl hLI) rfl
            · cases h
          · rename_i hd
            split at h
            · rename_i pc hmp
              split at h
              · rename_i stR hre
                injection h with h
                injection h with ht hs
                subst hs
                exact loopInv_reinsert_unnamed hre (loopInv_congr rfl rfl hLI) rfl
              · cases h
            · rename_i hmp
              injection h with h
              injection h with ht hs
              subst hs
              exact loopInv_congr rfl rfl hLI
    · simp at h
  | some id =>
    rw [hmid] at hLI
    obtain ⟨h1, h2, h3⟩ := hLI
    have hfresh : id ∉ ids := (List.nodup_cons.mp h3).1
    have h3' : ids.Nodup := (List.nodup_cons.mp h3).2
    have ha : ∀ id' w' i', (upd st.lookup id none) id' = some (w', i') →
        id' ∉ ids → ∃ s', liveAt st w' i' = some s' ∧ s'.maybe_id = some id' := by
      intro id' w' i' hl hnm
      by_cases hid' : id' = id
      · subst hid'
        rw [upd_same] at hl
        cases hl
      · rw [upd_ne _ _ _ _ hid'] at hl
        refine h1 id' w' i' hl ?_
        simp only [List.mem_cons]
        rintro (hc | hc)
        · exact hid' hc
        · exact hnm hc
    have hb : ∀ w' i' s' id', liveAt st w' i' = some s' →
        s'.maybe_id = some id' →
        (upd st.lookup id none) id' = some (w', i') ∧ id' ∉ ids ∧ id' ≠ id := by
      intro w' i' s' id' hs hid'
      obtain ⟨hlk, hnm⟩ := h2 w' i' s' id' hs hid'
      have hne : id' ≠ id := by
        intro hcontra
        subst hcontra
        exact hnm (List.mem_cons_self _ _)
      refine ⟨by rw [upd_ne _ _ _ _ hne]; exact hlk, ?_, hne⟩
      intro hmem
      exact hnm (List.mem_cons_of_mem _ hmem)
    simp only [processTask, hmid, removeNameStep] at h
    split at h
    · rename_i henc
      cases hva : asValue (resolvedCall cfg s0.call).1 with
      | none =>
        have hrc2 := resolvedCall_unresolved hva
        rw [hva, hrc2] at h
        simp only [] at h
        cases hnp : cfg.noPreimagePostponement with
        | some delay =>
          rw [hnp] at h
          simp only [] at h
          split at h
          · rename_i stR hre
            injection h with h
            injection h with ht hs
            subst hs
            exact loopInv_reinsert_named hre rfl ha hb h3' hfresh
          · cases h
        | none =>
          rw [hnp] at h
          simp only [] at h
          injection h with h
          injection h with ht hs
          subst hs
          refine ⟨ha, ?_, h3'⟩
          intro w' i' s' id' hs' hid'
          obtain ⟨hlk, hnm, _⟩ := hb w' i' s' id' hs' hid'
          exact ⟨hlk, hnm⟩
      | some c =>
        rw [hva] at h
        simp only [] at h
        set sgw := (if s0.origin.signed = true then cfg.dbWeight else 0) with hsgw
        cases hrc2 : (resolvedCall cfg s0.call).2 with
        | none =>
          rw [hrc2] at h
          simp only [] at h
          split at h
          · rename_i hd
            split at h
            · rename_i stR hre
              injection h with h
              injection h with ht hs
              subst hs
              exact loopInv_reinsert_named hre rfl ha hb h3' hfresh
            · cases h
          · rename_i hd
            split at h
            · rename_i pc hmp
              split at h
              · rename_i stR hre
                injection h with h
                injection h with ht hs
                subst hs
                exact loopInv_reinsert_named hre rfl ha hb h3' hfresh
              · cases h
            · rename_i hmp
              injection h with h
              injection h with ht hs
              subst hs
              refine ⟨ha, ?_, h3'⟩
              intro w' i' s' id' hs' hid'
              obtain ⟨hlk, hnm, _⟩ := hb w' i' s' id' hs' hid'
              exact ⟨hlk, hnm⟩
        | some hh =>
          rw [hrc2] at h
          simp only [] at h
          split at h
          · rename_i hd
            split at h
            · rename_i stR hre
              injection h with h
              injection h with ht hs
              subst hs
              exact loopInv_reinsert_named hre rfl ha hb h3' hfresh
            · cases h
          · rename_i hd
            split at h
            · rename_i pc hmp
              split at h
              · rename_i stR hre
                injection h with h
                injection h with ht hs
                subst hs
                exact loopInv_reinsert_named hre rfl ha hb h3' hfresh
              · cases h
            · rename_i hmp
              injection h with h
              injection h with ht hs
              subst hs
              refine ⟨ha, ?_, h3'⟩
              intro w' i' s' id' hs' hid'
              obtain ⟨hlk, hnm, _⟩ := hb w' i' s' id' hs' hid'
              exact ⟨hlk, hnm⟩
    · simp at h

/-- Names of the pending (drained) queue entries. -/
def idsOfP (pend : List (Nat × Nat × Scheduled)) : List (List Nat) :=
  pend.filterMap (fun e => e.2.2.maybe_id)

/-- Names of a queue before position-tagging. -/
def idsOfQ (q : List (Nat × Scheduled)) : List (List Nat) :=
  q.filterMap (fun e => e.2.maybe_id)

theorem idsOfP_cons (o i : Nat) (s : Scheduled) (rest : List (Nat × Nat × Scheduled)) :
    idsOfP ((o, i, s) :: rest) =
      (match s.maybe_id with
        | some id => id :: idsOfP rest
        | none => idsOfP rest) := by
  cases hmid : s.maybe_id <;> simp [idsOfP, List.filterMap_cons, hmid]

theorem idsOfP_enumFrom :
    ∀ (l : List (Nat × Scheduled)) (n : Nat),
      idsOfP (List.enumFrom n l) = idsOfQ l := by
  intro l
  induction l with
  | nil => intro n; rfl
  | cons x xs ih =>
    intro n
    cases hmid : x.2.maybe_id <;>
      simp [idsOfP, idsOfQ, List.enumFrom, List.filterMap_cons, hmid] <;>
      simpa [idsOfP, idsOfQ] using ih (n + 1)

theorem loopInv_initLoop {cfg : Config} {now next : Nat} :
    ∀ (pend : List (Nat × Nat × Scheduled)) (total : Nat) (st : State)
      (w2 : Nat) (st2 : State),
      LoopInv st (idsOfP pend) →
      initLoop cfg now next pend total st = .ok (w2, st2) →
      LoopInv st2 [] := by
  intro pend
  induction pend with
  | nil =>
    intro total st w2 st2 hLI h
    simp only [initLoop] at h
    injection h with h
    injection h with ht hs
    subst hs
    exact hLI
  | cons e rest ih =>
    intro total st w2 st2 hLI h
    obtain ⟨order, index, s⟩ := e
    simp only [initLoop] at h
    cases hp : processTask cfg now next order index s total st with
    | error e2 => rw [hp] at h; cases h
    | ok p =>
      obtain ⟨t1, st1⟩ := p
      rw [hp] at h
      refine ih t1 st1 w2 st2 ?_ h
      rw [idsOfP_cons] at hLI
      exact loopInv_processTask hLI hp

theorem pairwise_imp_mem {α : Type} {R S : α → α → Prop} :
    ∀ {l : List α}, (∀ a b, a ∈ l → b ∈ l → R a b → S a b) →
      l.Pairwise R → l.Pairwise S := by
  intro l
  induction l with
  | nil => intro _ _; exact List.Pairwise.nil
  | cons x xs ih =>
    intro hf hp
    rcases List.pairwise_cons.mp hp with ⟨hx, hxs⟩
    refine List.pairwise_cons.mpr ⟨?_, ?_⟩
    · intro b hb
      exact hf x b (List.mem_cons_self _ _) (List.mem_cons_of_mem _ hb) (hx b hb)
    · refine ih ?_ hxs
      intro a b ha hb
      exact hf a b (List.mem_cons_of_mem _ ha) (List.mem_cons_of_mem _ hb)

theorem pairwise_filterMap_of {α β : Type} (f : α → Option β)
    {R : α → α → Prop} {S : β → β → Prop}
    (hf : ∀ a b x y, R a b → f a = some x → f b = some y → S x y) :
    ∀ {l : List α}, l.Pairwise R → (l.filterMap f).Pairwise S := by
  intro l
  induction l with
  | nil => intro _; exact List.Pairwise.nil
  | cons a as ih =>
    intro hp
    rcases List.pairwise_cons.mp hp with ⟨ha, has⟩
    rw [List.filterMap_cons]
    cases hfa : f a with
    | none => exact ih has
    | some x =>
      refine List.pairwise_cons.mpr ⟨?_, ih has⟩
      intro y hy
      obtain ⟨b, hb, hfb⟩ := List.mem_filterMap.mp hy
      exact hf a b x y (ha b hb) hfa hfb

theorem pairwise_fst_lt_enumFrom {α : Type} :
    ∀ (l : List α) (n : Nat),
      (List.enumFrom n l).Pairwise (fun a b => a.1 < b.1) := by
  intro l
  induction l with
  | nil => intro n; exact List.Pairwise.nil
  | cons x xs ih =>
    intro n
    refine List.pairwise_cons.mpr ⟨?_, ih (n + 1)⟩
    intro b hb
    have : n + 1 ≤ b.1 := by
      clear ih
      induction xs generalizing n b with
      | nil => cases hb
      | cons y ys ih2 =>
        rcases List.mem_cons.mp hb with rfl | hb'
        · simp
        · have := ih2 (n + 1) b hb'
          omega
    simpa using this

theorem mem_enumFrom_getq {α : Type} :
    ∀ (l : List α) (n j : Nat) (a : α),
      (j, a) ∈ List.enumFrom n l ↔ ∃ k, j = n + k ∧ l.get? k = some a := by
  intro l
  induction l with
  | nil =>
    intro n j a
    simp [List.enumFrom]
  | cons x xs ih =>
    intro n j a
    simp only [List.enumFrom, List.mem_cons]
    constructor
    · rintro (h | h)
      · injection h with h1 h2
        exact ⟨0, by omega, by simp [h2]⟩
      · obtain ⟨k, hk, hg⟩ := (ih (n + 1) j a).mp h
        exact ⟨k + 1, by omega, by simpa using hg⟩
    · rintro ⟨k, rfl, hg⟩
      cases k with
      | zero =>
        left
        simp at hg
        simp [hg]
      | succ k' =>
        right
        refine (ih (n + 1) (n + (k' + 1)) a).mpr ⟨k', by omega, by simpa using hg⟩

theorem mem_queue_getq {taken : List (Option Scheduled)} {i : Nat} {s : Scheduled} :
    (i, s) ∈ taken.enum.filterMap (fun p => p.2.map (fun s => (p.1, s))) ↔
      taken.get? i = some (some s) := by
  rw [List.mem_filterMap]
  constructor
  · rintro ⟨⟨j, os⟩, hmem, hf⟩
    cases os with
    | none => simp at hf
    | some s' =>
      simp only [Option.map_some'] at hf
      injection hf with hf
      injection hf with hj hs
      rw [hj, hs] at hmem
      obtain ⟨k, hk, hg⟩ := (mem_enumFrom_getq taken 0 i (some s)).mp hmem
      rw [hk]
      simpa using hg
  · intro hget
    refine ⟨(i, some s), ?_, rfl⟩
    exact (mem_enumFrom_getq taken 0 i (some s)).mpr ⟨i, by omega, hget⟩

theorem loopInv_start {st : State} {now : Nat} (hinv : Inv st) :
    LoopInv { st with agenda := upd st.agenda now [] }
      (idsOfQ (sortByPrio ((st.agenda now).enum.filterMap
        (fun p => p.2.map (fun s => (p.1, s)))))) := by
  obtain ⟨h1, h2⟩ := hinv
  have hlive0 : ∀ w i, w ≠ now →
      liveAt { st with agenda := upd st.agenda now [] } w i = liveAt st w i := by
    intro w i hw
    unfold liveAt
    rw [show ({ st with agenda := upd st.agenda now [] } : State).agenda w =
      st.agenda w from upd_ne _ _ _ _ hw]
  have hlivenow : ∀ i,
      liveAt { st with agenda := upd st.agenda now [] } now i = none := by
    intro i
    unfold liveAt
    rw [show ({ st with agenda := upd st.agenda now [] } : State).agenda now =
      [] from upd_same _ _ _]
    simp
  have hmemids : ∀ id, id ∈ idsOfQ (sortByPrio ((st.agenda now).enum.filterMap
      (fun p => p.2.map (fun s => (p.1, s))))) ↔
      ∃ i s, (st.agenda now).get? i = some (some s) ∧ s.maybe_id = some id := by
    intro id
    rw [show idsOfQ (sortByPrio ((st.agenda now).enum.filterMap
        (fun p => p.2.map (fun s => (p.1, s))))) =
      (sortByPrio ((st.agenda now).enum.filterMap
        (fun p => p.2.map (fun s => (p.1, s))))).filterMap
        (fun e => e.2.maybe_id) from rfl]
    rw [List.mem_filterMap]
    constructor
    · rintro ⟨⟨i, s⟩, hmem, hid⟩
      rw [(sortByPrio_perm _).mem_iff, mem_queue_getq] at hmem
      exact ⟨i, s, hmem, hid⟩
    · rintro ⟨i, s, hget, hid⟩
      refine ⟨(i, s), ?_, hid⟩
      rw [(sortByPrio_perm _).mem_iff, mem_queue_getq]
      exact hget
  refine ⟨?_, ?_, ?_⟩
  · intro id w i hl hnm
    obtain ⟨s, hs, hid⟩ := h1 id w i hl
    have hw : w ≠ now := by
      intro hcontra
      subst hcontra
      refine hnm ((hmemids id).mpr ⟨i, s, ?_, hid⟩)
      exact liveAt_some_iff.mp hs
    rw [hlive0 w i hw]
    exact ⟨s, hs, hid⟩
  · intro w i s id hs hid
    have hw : w ≠ now := by
      intro hcontra
      subst hcontra
      rw [hlivenow i] at hs
      cases hs
    rw [hlive0 w i hw] at hs
    refine ⟨h2 w i s id hs hid, ?_⟩
    intro hmem
    obtain ⟨j, s', hget', hid'⟩ := (hmemids id).mp hmem
    have hlk1 := h2 w i s id hs hid
    have hlk2 := h2 now j s' id (liveAt_some_iff.mpr hget') hid'
    rw [hlk1] at hlk2
    injection hlk2 with hlk2
    injection hlk2 with hweq
    exact hw hweq
  · have hq0 : ((st.agenda now).enum).Pairwise
        (fun a b : Nat × Option Scheduled => a.1 < b.1) :=
      pairwise_fst_lt_enumFrom (st.agenda now) 0
    have hq1 : (((st.agenda now).enum.filterMap
        (fun p => p.2.map (fun s => (p.1, s))))).Pairwise
        (fun a b : Nat × Scheduled => a.1 < b.1) := by
      refine pairwise_filterMap_of _ ?_ hq0
      intro a b x y hlt hfa hfb
      cases ha : a.2 with
      | none => rw [ha] at hfa; simp at hfa
      | some sa =>
        cases hb : b.2 with
        | none => rw [hb] at hfb; simp at hfb
        | some sb =>
          rw [ha] at hfa
          rw [hb] at hfb
          simp only [Option.map_some'] at hfa hfb
          injection hfa with hfa
          injection hfb with hfb
          rw [← hfa, ← hfb]
          exact hlt
    have hq2 : (((st.agenda now).enum.filterMap
        (fun p => p.2.map (fun s => (p.1, s))))).Pairwise
        (fun a b : Nat × Scheduled => ∀ x y,
          a.2.maybe_id = some x → b.2.maybe_id = some y → x ≠ y) := by
      refine pairwise_imp_mem ?_ hq1
      intro a b ha hb hlt x y hxa hyb hxy
      subst hxy
      obtain ⟨ia, sa⟩ := a
      obtain ⟨ib, sb⟩ := b
      rw [mem_queue_getq] at ha hb
      have hla := h2 now ia sa x (liveAt_some_iff.mpr ha) hxa
      have hlb := h2 now ib sb x (liveAt_some_iff.mpr hb) hyb
      rw [hla] at hlb
      injection hlb with hlb
      injection hlb with _ hieq
      simp only at hlt
      omega
    have hnq : (idsOfQ ((st.agenda now).enum.filterMap
        (fun p => p.2.map (fun s => (p.1, s))))).Nodup := by
      refine pairwise_filterMap_of _ ?_ hq2
      intro a b x y hS hfa hfb
      exact hS x y hfa hfb
    have hperm : (idsOfQ (sortByPrio ((st.agenda now).enum.filterMap
        (fun p => p.2.map (fun s => (p.1, s)))))).Perm
        (idsOfQ ((st.agenda now).enum.filterMap
          (fun p => p.2.map (fun s => (p.1, s))))) :=
      (sortByPrio_perm _).filterMap _
    exact hperm.nodup_iff.mpr hnq

/-- A successful tick preserves the name-index consistency invariant. -/
theorem inv_on_init {cfg : Config} {now : Nat} {st : State}
    (hinv : Inv st) {w2 : Nat} {st2 : State}
    (h : on_init cfg now st = .ok (w2, st2)) : Inv st2 := by
  unfold on_init at h
  simp only [] at h
  refine (loopInv_nil_iff st2).mp
    (loopInv_initLoop _ cfg.baseWeight
      { st with agenda := upd st.agenda now [] } w2 st2 ?_ h)
  rw [show ((sortByPrio ((st.agenda now).enum.filterMap
      (fun p => p.2.map (fun s => (p.1, s))))).enum) =
    List.enumFrom 0 (sortByPrio ((st.agenda now).enum.filterMap
      (fun p => p.2.map (fun s => (p.1, s))))) from rfl]
  rw [idsOfP_enumFrom]
  exact loopInv_start hinv

theorem inv_emptyState : Inv emptyState := by
  constructor
  · intro id w i hl
    simp [emptyState] at hl
  · intro w i s id hs hid
    simp [liveAt, emptyState] at hs

/-- C2 (amended): the name-index consistency invariant — every named task in
the Agenda has exactly one `Lookup` entry pointing at its current address —
is preserved by every successful schedule, schedule_named, cancel,
cancel_named, reschedule_named, by a reschedule (by address) of an anonymous
task, and by a whole tick of the engine (postponement, budget deferral and
periodic re-enqueue included); it is NOT preserved by reschedule-by-address
of a named task, which moves the task without touching the Name Index (see
the counterexample). -/
theorem C2_thm :
    (∀ cfg now when mp prio origin call (st : State) r st' a,
      Inv st → do_schedule cfg now when mp prio origin call st = (r, st') →
      r = .ok a → Inv st') ∧
    (∀ cfg now id when mp prio origin call (st : State) r st' a,
      Inv st → do_schedule_named cfg now id when mp prio origin call st = (r, st') →
      r = .ok a → Inv st') ∧
    (∀ cfg origin when index (st : State) r st',
      Inv st → do_cancel cfg origin when index st = (r, st') →
      r = .ok () → Inv st') ∧
    (∀ cfg origin id (st : State) r st',
      Inv st → do_cancel_named cfg origin id st = (r, st') →
      r = .ok () → Inv st') ∧
    (∀ cfg now when index nt (st : State) r st' a,
      Inv st →
      (∀ task, liveAt st when index = some task → task.maybe_id = none) →
      do_reschedule cfg now when index nt st = (r, st') →
      r = .ok a → Inv st') ∧
    (∀ cfg now id nt (st : State) r st' a,
      Inv st → do_reschedule_named cfg now id nt st = (r, st') →
      r = .ok a → Inv st') ∧
    (∀ cfg now (st : State) w2 st2,
      Inv st → on_init cfg now st = .ok (w2, st2) → Inv st2) :=
  ⟨fun _ _ _ _ _ _ _ _ _ _ _ hi h hr => inv_do_schedule hi h hr,
   fun _ _ _ _ _ _ _ _ _ _ _ _ hi h hr => inv_do_schedule_named hi h hr,
   fun _ _ _ _ _ _ _ hi h hr => inv_do_cancel hi h hr,
   fun _ _ _ _ _ _ hi h hr => inv_do_cancel_named hi h hr,
   fun _ _ _ _ _ _ _ _ _ hi hu h hr => inv_do_reschedule hi hu h hr,
   fun _ _ _ _ _ _ _ _ hi h hr => inv_do_reschedule_named hi h hr,
   fun _ _ _ _ _ hi h => inv_on_init hi h⟩

/-- State after naming task `[4]` at slot 5 from the empty state. -/
def wC2st : State :=
  (do_schedule_named cfgTriv 1 [4] (.At 5) none 100 orgU (.value smallCall)
    emptyState).2

/-- Witness for C2: scheduling a named task into the empty state and then
ticking slot 5 both preserve the invariant. -/
theorem C2_thm_w : Inv wC2st ∧ Inv (stepState cfgTriv 5 wC2st) :=
  ⟨C2_thm.2.1 cfgTriv 1 [4] (.At 5) none 100 orgU (.value smallCall) emptyState
    (do_schedule_named cfgTriv 1 [4] (.At 5) none 100 orgU (.value smallCall)
      emptyState).1
    wC2st (5, 0) inv_emptyState rfl rfl,
   C2_thm.2.2.2.2.2.2 cfgTriv 5 wC2st 6 (stepState cfgTriv 5 wC2st)
    (C2_thm.2.1 cfgTriv 1 [4] (.At 5) none 100 orgU (.value smallCall) emptyState
      (do_schedule_named cfgTriv 1 [4] (.At 5) none 100 orgU (.value smallCall)
        emptyState).1
      wC2st (5, 0) inv_emptyState rfl rfl)
    rfl⟩

end Scheduler
